import Mathlib

/-!
Verification of the nanny-scraping pipeline's core logic.

Shallow embedding of the repository's Python sources:
* `scorer.py`   — deterministic score-adjustment engine and scoring gateway;
* `gsheets.py`  — id/url canonicalisation and the spreadsheet upsert reconciler;
* `extractors.py` — the Russian "last active" phrase parser;
* `nash_scrape.py` — the per-page collector / opener and the cross-page paginator.

Python floats are modelled as rationals (`ℚ`); all facts proved about them
are robust to the float/rational distinction (strict inequalities with wide
margins, non-integrality of values strictly between integers).
Python dicts with string keys are modelled as insertion-ordered association
lists; `None` and `""` are identified where the source only ever tests
truthiness or stringifies the value.
-/

/-! ### scorer.py — numeric helpers -/

/-- Python `round` / format rounding: round half to even (banker's rounding). -/
def roundHE (q : ℚ) : ℤ :=
  let fl : ℤ := ⌊q⌋
  let fr : ℚ := q - fl
  if fr < 1/2 then fl
  else if 1/2 < fr then fl + 1
  else if fl % 2 = 0 then fl else fl + 1

/-- Python `int(x)` on a float/rational: truncation toward zero. -/
def truncQ (q : ℚ) : ℤ :=
  if q < 0 then -⌊-q⌋ else ⌊q⌋

/-- Fixed-point decimal rendering, models Python `f"{q:.Nf}"`. -/
def fmtFixed (digits : ℕ) (q : ℚ) : String :=
  let scaled : ℤ := roundHE (|q| * (10 : ℚ) ^ digits)
  let n : ℕ := scaled.toNat
  let ip : ℕ := n / 10 ^ digits
  let fp : ℕ := n % 10 ^ digits
  let fpStr : String := toString fp
  let pad : String := String.mk (List.replicate (digits - fpStr.length) '0')
  (if q < 0 ∧ scaled ≠ 0 then "-" else "") ++
    (if digits = 0 then toString ip else toString ip ++ "." ++ pad ++ fpStr)

/-! ### scorer.py — `_apply_penalties_with_details`

The Python function threads a running score through a sequence of additive
blocks (age, travel time, recommendations, audio), one multiplicative
authenticity block, and a final clamp.  Each block below is one contiguous
block of the source function; the running score is the sum of the deltas so
far because every block before the authenticity one is purely additive. -/

/-- Age block: delta added to the score (`0` when no branch fires). -/
def ageDelta (age : Option ℤ) : ℚ :=
  match age with
  | none => 0
  | some a =>
    if a < 45 then 1
    else if 55 ≤ a ∧ a ≤ 64 then -1
    else if 65 ≤ a then -2
    else 0

/-- Age block: the `cap_to_3` flag set by the `age >= 65` branch. -/
def ageCapTo3 (age : Option ℤ) : Bool :=
  match age with
  | none => false
  | some a =>
    if a < 45 then false
    else if 55 ≤ a ∧ a ≤ 64 then false
    else if 65 ≤ a then true
    else false

/-- Age block: audit-trail entries (`add` records every non-zero delta). -/
def ageAdjustments (age : Option ℤ) : List (String × ℚ) :=
  match age with
  | none => []
  | some a =>
    if a < 45 then [("Возраст < 45: +1", 1)]
    else if 55 ≤ a ∧ a ≤ 64 then [("Возраст 55–64: -1", -1)]
    else if 65 ≤ a then [("Возраст ≥ 65: -2 (потолок 3)", -2)]
    else []

/-- Travel-time block delta (`if travel_time is not None and travel_time > 60`). -/
def travelDelta (t : Option ℤ) : ℚ :=
  match t with
  | none => 0
  | some t =>
    if 60 < t then
      if 61 ≤ t ∧ t ≤ 75 then -1
      else if 76 ≤ t ∧ t ≤ 90 then -2
      else -3
    else 0

/-- Travel-time block audit entries. -/
def travelAdjustments (t : Option ℤ) : List (String × ℚ) :=
  match t with
  | none => []
  | some t =>
    if 60 < t then
      if 61 ≤ t ∧ t ≤ 75 then [("Время в пути 61–75 мин: -1", -1)]
      else if 76 ≤ t ∧ t ≤ 90 then [("Время в пути 76–90 мин: -2", -2)]
      else [("Время в пути > 90 мин: -3", -3)]
    else []

/-- Recommendations bonus. -/
def recsDelta (b : Bool) : ℚ := if b then 1 else 0

def recsAdjustments (b : Bool) : List (String × ℚ) :=
  if b then [("Есть рекомендации: +1", 1)] else []

/-- Audio bonus (`has_audio or has_fairy_tale_audio`). -/
def audioDelta (a f : Bool) : ℚ := if a || f then 1 else 0

def audioAdjustments (a f : Bool) : List (String × ℚ) :=
  if a || f then [("Есть голосовое сообщение: +1", 1)] else []

/-- `a = max(0.0, min(1.0, float(authenticity)))`. -/
def clamp01 (x : ℚ) : ℚ := max 0 (min 1 x)

/-- The hinged authenticity factor. -/
def authFactor (a : ℚ) : ℚ := if 0.8 ≤ a then 1 else 0.6 + 0.5 * a

/-- Authenticity block: multiplies the running score and appends one audit
entry (the entry is appended even when the factor is `1`, mirroring the
source's unconditional `adjustments.append`). -/
def authApply (s : ℚ) (auth : Option ℚ) : ℚ × List (String × ℚ) :=
  match auth with
  | none => (s, [])
  | some x =>
    let a := clamp01 x
    let factor := authFactor a
    let s' := s * factor
    (s', [("Аутентичность " ++ fmtFixed 2 a ++ " → множитель ×" ++ fmtFixed 2 factor,
           s' - s)])

/-- `score = max(1, min(10, score)); if cap_to_3: score = min(score, 3)`. -/
def clampFinal (s : ℚ) (cap : Bool) : ℚ :=
  let c := max 1 (min 10 s)
  if cap then min c 3 else c

/-- `_apply_penalties_with_details` (scorer.py): deterministic adjustments on
top of the integer base score; returns the final (rational) score and the
ordered audit trail. -/
def apply_penalties_with_details (fit_base : ℤ) (age travel_time : Option ℤ)
    (authenticity : Option ℚ)
    (has_recommendations has_audio has_fairy_tale_audio : Bool) :
    ℚ × List (String × ℚ) :=
  let s1 : ℚ := (fit_base : ℚ) + ageDelta age
  let s2 : ℚ := s1 + travelDelta travel_time
  let s3 : ℚ := s2 + recsDelta has_recommendations
  let s4 : ℚ := s3 + audioDelta has_audio has_fairy_tale_audio
  let res := authApply s4 authenticity
  (clampFinal res.1 (ageCapTo3 age),
   ageAdjustments age ++ travelAdjustments travel_time ++
     recsAdjustments has_recommendations ++
     audioAdjustments has_audio has_fairy_tale_audio ++ res.2)

/-! ### scorer.py — `score_with_chatgpt`

The network call and JSON parsing are fallible external steps; the whole
`try` body depends only on the parsed response data, so the call is modelled
as an `Except` value: `.error` covers an unreachable service, a malformed /
unparseable model response and any other raised exception, `.ok` carries the
fields the source reads out of the parsed JSON object. -/

/-- Fields read from the parsed model response (`data.get(...)`).  A `none`
models an absent key (the source substitutes a default). -/
structure ModelData where
  operational_fit : Option ℚ
  human_fit : Option ℚ
  authenticity : Option ℚ
  combined_fit : Option ℚ
  is_male : Bool
  reasons_operational : List String
  reasons_human : List String
  reasons_authenticity : List String
  missing_info : List String

/-- An exception caught by the `except` clause of `score_with_chatgpt`. -/
structure ApiError where
  msg : String
  code : Option String
  etype : Option String

/-- The error bullet built in the `except` clause. -/
def apiErrorText (e : ApiError) : String :=
  match e.code with
  | some c => "error (" ++ c ++ "): " ++ e.msg
  | none =>
    match e.etype with
    | some t => "error (" ++ t ++ "): " ++ e.msg
    | none => "error: " ++ e.msg

/-- The recommendations value in the profile dict can be a list, a string or
anything else (`isinstance` chain in the source). -/
inductive RecsVal where
  | list (xs : List String)
  | str (s : String)
  | other

/-- The profile-dict fields `score_with_chatgpt` reads.  `age`/`travel_time`
are `none` when the key is absent or `int()` conversion fails. -/
structure ProfileFields where
  age : Option ℤ
  travel_time : Option ℤ
  recommendations : RecsVal
  has_audio : Bool
  has_fairy_tale_audio : Bool

/-- `has_recs` computation of the source. -/
def hasRecs : RecsVal → Bool
  | .list xs => xs.length > 0
  | .str s => s.trim ≠ ""
  | .other => false

/-- `f"{delta:+.1f}"` vs `f"{int(delta):+d}"` selection and rendering. -/
def deltaStr (d : ℚ) : String :=
  let fr : ℚ := d - ⌊d⌋
  if 1/1000000000 ≤ |fr| then
    (if d < 0 then "-" else "+") ++ fmtFixed 1 |d|
  else
    (if truncQ d < 0 then "-" else "+") ++ toString (truncQ d).natAbs

/-- `score_with_chatgpt` (scorer.py).  `api_key = none` models a missing or
empty `OPENAI_API_KEY`; `call` is the outcome of the model invocation plus
response parsing.  Returns `(final_score, explanation bullets, is_male)`. -/
def score_with_chatgpt (api_key : Option String)
    (call : Except ApiError ModelData) (profile : ProfileFields) :
    ℚ × List String × Bool :=
  match api_key with
  | none => (0, ["error: OPENAI_API_KEY not set"], false)
  | some _ =>
    match call with
    | .error e => (0, [apiErrorText e], false)
    | .ok data =>
      let operational_fit := data.operational_fit.getD 0
      let human_fit := data.human_fit.getD 0
      let authenticity := data.authenticity.getD (1/2)
      let cf0 := data.combined_fit.getD 0
      -- `float(...) or (0.6*op + 0.4*hum)`: `0.0` is falsy in Python
      let combined_fit := if cf0 = 0 then 0.6 * operational_fit + 0.4 * human_fit else cf0
      let fit_base := max 0 (min 10 combined_fit)
      let has_recs := hasRecs profile.recommendations
      let res := apply_penalties_with_details (roundHE fit_base)
        profile.age profile.travel_time (some authenticity)
        has_recs profile.has_audio profile.has_fairy_tale_audio
      let final_score := res.1
      let adjustments := res.2
      let bullets : List String :=
        ["Операционный фит: " ++ fmtFixed 1 operational_fit] ++
        (data.reasons_operational.take 4).map (fun r => "• " ++ r) ++
        ["Человеческий фит: " ++ fmtFixed 1 human_fit] ++
        (data.reasons_human.take 4).map (fun r => "• " ++ r) ++
        ["Аутентичность «О себе»: " ++ fmtFixed 2 authenticity] ++
        (data.reasons_authenticity.take 3).map (fun r => "• " ++ r) ++
        ["Комбинированный (до корректировок): " ++ fmtFixed 1 fit_base] ++
        ["Корректировки:"] ++
        (if adjustments ≠ [] then
          adjustments.map (fun la => "• " ++ la.1 ++ " (" ++ deltaStr la.2 ++ ")")
         else ["• нет"]) ++
        (if data.missing_info ≠ [] then
          ["Чего не хватает:"] ++ (data.missing_info.take 3).map (fun m => "• " ++ m)
         else []) ++
        ["Итоговая оценка: " ++ toString final_score]
      (final_score, bullets, data.is_male)

/-! ### gsheets.py — identity normalisation (`canon_pid`, `canon_url`)

`canon_url` calls `urllib.parse.urlsplit` / `urlunsplit`.  The split is
modelled for the URL shapes this pipeline handles (absolute URLs with a
non-empty lower-case scheme, and scheme-less path strings): fragment and
query are cut at the first `#` / `?` of the whole string, the scheme is the
part before the first `://`, the netloc runs to the next `/`. -/

/-- Split a character list at the first occurrence of `c`:
`(before, some after)`, or `(l, none)` when `c` does not occur. -/
def splitAtFirst (c : Char) : List Char → List Char × Option (List Char)
  | [] => ([], none)
  | x :: xs =>
    if x = c then ([], some xs)
    else
      let r := splitAtFirst c xs
      (x :: r.1, r.2)

/-- Split at the first occurrence of the substring `sep`. -/
def splitOnSub (sep : List Char) : List Char → Option (List Char × List Char)
  | [] => if sep.isPrefixOf ([] : List Char) then some ([], []) else none
  | x :: xs =>
    if sep.isPrefixOf (x :: xs) then some ([], (x :: xs).drop sep.length)
    else
      match splitOnSub sep xs with
      | some (a, b) => some (x :: a, b)
      | none => none

structure SplitUrl where
  scheme : List Char
  netloc : List Char
  path : List Char

/-- Model of `urlsplit` restricted to scheme/netloc/path (query and fragment
are represented by their removal, which is all `canon_url` keeps of them).
Python lower-cases the scheme. -/
def urlsplitModel (u : List Char) : SplitUrl :=
  let noFrag := (splitAtFirst '#' u).1
  let noQuery := (splitAtFirst '?' noFrag).1
  match splitOnSub ("://".data) noQuery with
  | some (sch, rest) =>
    ⟨sch.map Char.toLower, rest.takeWhile (· ≠ '/'), rest.dropWhile (· ≠ '/')⟩
  | none => ⟨[], [], noQuery⟩

/-- Model of `urlunsplit((scheme, netloc, path, "", ""))`. -/
def urlunsplitModel (sch nl p : List Char) : List Char :=
  let url := p
  let url :=
    if nl ≠ [] ∨ (url ≠ [] ∧ url.take 2 = "//".data) then
      "//".data ++ nl ++
        (if url ≠ [] ∧ url.take 1 ≠ "/".data then '/' :: url else url)
    else url
  if sch ≠ [] then sch ++ ':' :: url else url

/-- Python `path.rstrip("/")`. -/
def rstripSlash (l : List Char) : List Char :=
  (l.reverse.dropWhile (· = '/')).reverse

/-- `canon_url` (gsheets.py): normalise a profile URL. -/
def canon_url (u : String) : String :=
  if u = "" then ""
  else
    let s := urlsplitModel u.data
    String.mk (urlunsplitModel s.scheme s.netloc (rstripSlash s.path))

/-- Python `str.strip()` on a character list. -/
def stripChars (l : List Char) : List Char :=
  ((l.dropWhile Char.isWhitespace).reverse.dropWhile Char.isWhitespace).reverse

/-- `canon_pid` (gsheets.py): strip spaces, keep digits only. -/
def canon_pid (x : String) : String :=
  String.mk ((stripChars x.data).filter Char.isDigit)


/-! ### gsheets.py — sheet state and the upsert reconciler

A worksheet data row (everything below the header row) is an
insertion-ordered association list from header name to cell text, like the
Python dicts the source passes around; `None` values and absent-after-`get`
values both read as `""` (the source only stringifies or truth-tests them,
and `batch_update_machine_fields` turns `None` into `""` explicitly).
Position `i` of `SheetState.sheet` is spreadsheet row `i + 2`. -/

def Row : Type := List (String × String)

instance : DecidableEq Row := by unfold Row; infer_instance

/-- `r.get(k, "")` / `r[k]` with `None ↦ ""`. -/
def rget (r : Row) (k : String) : String := ((r : List _).lookup k).getD ""

/-- `k in r` for a Python dict. -/
def rhas (r : Row) (k : String) : Bool := ((r : List _).lookup k).isSome

/-- `r[k] = v` for a Python dict (replace in place or append). -/
def rset : Row → String → String → Row
  | [], k, v => [(k, v)]
  | (k', v') :: rest, k, v =>
    if k' = k then (k, v) :: rest else (k', v') :: rset rest k v

/-- `r.setdefault(k, v)`. -/
def rsetdefault (r : Row) (k v : String) : Row :=
  if rhas r k then r else rset r k v

/-- Generic dict assignment for the in-memory indexes. -/
def setByKey {α β : Type} [DecidableEq α] : List (α × β) → α → β → List (α × β)
  | [], k, v => [(k, v)]
  | (k', v') :: rest, k, v =>
    if k' = k then (k, v) :: rest else (k', v') :: setByKey rest k v

def MACHINE_NANNIES_HEADERS : List String :=
  ["profile_id", "profile_url", "name", "phone", "location", "travel_time_min",
   "age", "experience_years", "about", "education", "recommendations", "score",
   "explanation_bullets", "last_active_raw", "last_active_at", "first_seen_at",
   "last_seen_at"]

def HUMAN_NANNIES_HEADERS : List String := ["status", "notes", "last_contacted_at"]

def NANNIES_HEADERS : List String := MACHINE_NANNIES_HEADERS ++ HUMAN_NANNIES_HEADERS

/-- The fixed machine-owned allow-list for updates of existing rows. -/
def MACHINE_UPDATE_COLS : List String :=
  ["last_active_raw", "last_active_at", "last_seen_at", "profile_url"]

/-- The persisted table plus the two in-memory indexes of the sheet context
(`id_to_row`: 2-based row index, possibly the `-1` sentinel the ctx sync
writes for rows inserted in this process; `existing_urls_by_id`). -/
structure SheetState where
  sheet : List Row
  idToRow : List (String × ℤ)
  urlsById : List (String × String)

/-- The cells `batch_update_machine_fields` writes for one row: only columns
in the allow-list that exist in the header map and in the partial dict. -/
def updateCells (data : Row) : List (String × String) :=
  MACHINE_UPDATE_COLS.filterMap fun col =>
    if col ∈ NANNIES_HEADERS ∧ rhas data col then some (col, rget data col) else none

def modifyRowAt (sheet : List Row) (i : ℕ) (f : Row → Row) : List Row :=
  match sheet, i with
  | [], _ => []
  | r :: rest, 0 => f r :: rest
  | r :: rest, n+1 => r :: modifyRowAt rest n f

def writeRowCells (r : Row) (cells : List (String × String)) : Row :=
  cells.foldl (fun acc kv => rset acc kv.1 kv.2) r

/-- Write one row's update cells at its 2-based row index.  This is only
reached on the non-raising path of the batch update below; an update that
queues no cell is a no-op whatever its index (nothing is sent for it), and
the callers only ever produce proper 2-based data-row indices or the `-1`
sentinel, never the header row 1. -/
def applyRowUpdate (sheet : List Row) (rowIdx : ℤ) (data : Row) : List Row :=
  if 2 ≤ rowIdx then
    modifyRowAt sheet (rowIdx - 2).toNat (fun r => writeRowCells r (updateCells data))
  else sheet

/-- `batch_update_machine_fields` (gsheets.py): queue the allow-listed cells
of every row, then `ws.update_cells` on the queued cells.  gspread computes
the A1 labels of the queued cells client-side and `rowcol_to_a1` raises
`IncorrectCellLabel` on a row index below 1 — in particular on the `-1`
sentinel the ctx sync records for fresh inserts — before anything is sent,
so the call is fallible: it errors as soon as some row with at least one
queued cell has such an index, and otherwise returns the updated rows and
the number of rows that had at least one cell written. -/
def batch_update_machine_fields (sheet : List Row) (updates : List (ℤ × Row)) :
    Except String (List Row × ℕ) :=
  if (updates.filter (fun u => updateCells u.2 ≠ ([] : Row))).any
      (fun u => decide (u.1 < 1)) then
    Except.error "IncorrectCellLabel"
  else
    Except.ok (updates.foldl (fun s u => applyRowUpdate s u.1 u.2) sheet,
      (updates.filter (fun u => updateCells u.2 ≠ ([] : Row))).length)

/-- `append_new_rows` payload: `[r.get(h, "") for h in NANNIES_HEADERS]`. -/
def mkSheetRow (r : Row) : Row := NANNIES_HEADERS.map (fun h => (h, rget r h))

def append_new_rows (sheet : List Row) (rows : List Row) : List Row × ℕ :=
  (sheet ++ rows.map mkSheetRow, rows.length)

/-- Numeric sort key of the `score` cell (the Sheets API sorts the column
numerically; non-numeric cells sort as 0 here — only the permutation
property of the sort is ever used). -/
def scoreKey (r : Row) : ℕ := ((rget r "score").toNat?).getD 0

/-- `sort_by_header(ws, "score", desc=True)`: reorder the data rows by
descending score. -/
def sort_by_score (sheet : List Row) : List Row :=
  List.insertionSort (fun a b => scoreKey b ≤ scoreKey a) sheet

/-- `pid_raw = r.get(PID_FIELD) or r.get("id") or r.get("profileId")`
(falsy chaining: `None` and `""` both fall through). -/
def normPidRaw (r : Row) : String :=
  if rget r "profile_id" ≠ "" then rget r "profile_id"
  else if rget r "id" ≠ "" then rget r "id"
  else rget r "profileId"

/-- The `normalize url -> profile_url` block of the loop. -/
def normUrl (r : Row) : Row :=
  if rget r "profile_url" ≠ "" then
    rset r "profile_url" (canon_url (rget r "profile_url"))
  else if rget r "url" ≠ "" then
    rset r "profile_url" (canon_url (rget r "url"))
  else r

/-- The in-place mutations the `upsert_nannies` loop performs on a record
whose canonical id is non-empty: URL canonicalisation, canonical id, and
defaults for new rows. -/
def normBody (now : String) (r : Row) : Row :=
  let r1 := normUrl r
  let r2 := rset r1 "profile_id" (canon_pid (normPidRaw r))
  let r3 := rsetdefault r2 "profile_url" (rget r2 "url")
  let r4 := rsetdefault r3 "first_seen_at" now
  let r5 := rsetdefault r4 "last_seen_at" now
  let r6 := rsetdefault r5 "status" "Новый"
  let r7 := rsetdefault r6 "notes" ""
  rsetdefault r7 "last_contacted_at" ""

/-- The per-record normalisation at the top of the `upsert_nannies` loop:
records with an empty canonical id are skipped (`none`). -/
def normalizeScrapedRow (now : String) (r : Row) : Option Row :=
  if canon_pid (normPidRaw r) = "" then none else some (normBody now r)

/-- `for k in MACHINE_UPDATE_COLS: if k in r: upd[k] = r[k]`. -/
def updFromCols (r : Row) (cols : List String) (u : Row) : Row :=
  cols.foldl (fun u k => if rhas r k then rset u k (rget r k) else u) u

/-- The partial machine-field update built for one known id: allow-listed
fields present in the record, plus the canonical URL when the stored one is
blank or differs. -/
def buildUpd (st : SheetState) (pid : String) (r : Row) : Row :=
  let upd := updFromCols r MACHINE_UPDATE_COLS ([] : Row)
  if rget r "profile_url" ≠ "" then
    let sheet_url := (st.urlsById.lookup pid).getD ""
    if sheet_url = "" ∨ sheet_url ≠ rget r "profile_url" then
      rset upd "profile_url" (rget r "profile_url")
    else upd
  else upd

structure UpsertPlan where
  toInsert : List Row
  toUpdate : List (ℤ × Row)

/-- One iteration of the `upsert_nannies` partition loop on an
already-normalised record.  (The source looks the id up twice —
`pid not in id_to_row` and then `id_to_row.get(pid)`; the second lookup can
no longer be `None`, so its dead re-insert branch collapses into the single
`match` here.) -/
def planStep (st : SheetState) (new_only : Bool) (plan : UpsertPlan) (r : Row) :
    UpsertPlan :=
  match st.idToRow.lookup (rget r "profile_id") with
  | none => { plan with toInsert := plan.toInsert ++ [r] }
  | some rowIdx =>
    if new_only then plan
    else
      { plan with
        toUpdate := setByKey plan.toUpdate rowIdx (buildUpd st (rget r "profile_id") r) }

def upsertPlan (st : SheetState) (rows : List Row) (new_only : Bool) (now : String) :
    UpsertPlan :=
  (rows.filterMap (normalizeScrapedRow now)).foldl (planStep st new_only) ⟨[], []⟩

/-- Keep the in-memory maps in sync after the batch write (the tail of
`upsert_nannies`): unknown ids are recorded with the `-1` row sentinel, and
the canonical URL map is refreshed.  The Python loop runs over all of
`scraped_rows`; records that were skipped for an empty canonical id are
no-ops of this loop (their `canon_pid(r["profile_id"])` is `""` as well), so
folding over the normalised records is equivalent. -/
def syncStep (s : SheetState) (r : Row) : SheetState :=
  let pid := canon_pid (rget r "profile_id")
  if pid = "" then s
  else
    let s1 :=
      if (s.idToRow.lookup pid).isSome then s
      else { s with idToRow := s.idToRow ++ [(pid, -1)] }
    let u := rget r "profile_url"
    if u ≠ "" then { s1 with urlsById := setByKey s1.urlsById pid u } else s1

def syncCtx (st : SheetState) (processed : List Row) : SheetState :=
  processed.foldl syncStep st

/-- `upsert_nannies` (gsheets.py) with a reused sheet context: append the new
rows, apply the partial machine-field updates, re-sort by score, sync the
in-memory indexes.  Returns the new state and `(inserted, updated)` counts —
or the propagated exception when the batch update raises, carrying the
worksheet rows at raise time (the appends have already been sent, the raise
precedes any update write, and re-sort and ctx sync never run).
(`apply_column_colors` only changes formatting and is not part of the data
model.) -/
def upsert_nannies (st : SheetState) (scraped : List Row) (new_only : Bool)
    (now : String) : Except (String × List Row) (SheetState × ℕ × ℕ) :=
  let plan := upsertPlan st scraped new_only now
  let ar := append_new_rows st.sheet plan.toInsert
  match (if new_only then Except.ok (ar.1, 0)
         else batch_update_machine_fields ar.1 plan.toUpdate) with
  | Except.error e => Except.error (e, ar.1)
  | Except.ok bu =>
    Except.ok (syncCtx { st with sheet := sort_by_score bu.1 }
      (scraped.filterMap (normalizeScrapedRow now)), ar.2, bu.2)

/-- The sheet context after a per-page flush, as the paginator's
`try/except` around `upsert_nannies` leaves it: on success the synced new
state, on a raise the old context with the worksheet rows as the raise left
them (appends done, no updates, no re-sort, no ctx sync). -/
def upsertFlushState (st : SheetState) (scraped : List Row) (new_only : Bool)
    (now : String) : SheetState :=
  match upsert_nannies st scraped new_only now with
  | Except.ok r => r.1
  | Except.error e => { st with sheet := e.2 }

/-- The worksheet data rows after an `upsert_nannies` call, whether it
returned (the synced, re-sorted sheet) or raised (the rows the raise left
behind). -/
def wsRowsAfterUpsert : Except (String × List Row) (SheetState × ℕ × ℕ) → List Row
  | Except.ok r => r.1.sheet
  | Except.error e => e.2

/-- Projection of a row to its non-machine-writable part (everything outside
the update allow-list, in particular the human-owned status, notes and
last-contacted fields). -/
def stripMachineCols (r : Row) : Row :=
  (r : List (String × String)).filter (fun kv => kv.1 ∉ MACHINE_UPDATE_COLS)



/-! ### extractors.py — datetime model

Python's timezone-aware `datetime` values (fixed local offset, no DST
transitions matter for any claim) are modelled by a proleptic-Gregorian day
number plus normalised time-of-day fields.  `datetime - timedelta` is
subtraction on the microsecond timeline; `replace(...)` is a field update;
comparison compares timeline positions. -/

def microsPerSec : ℤ := 1000000
def microsPerMin : ℤ := 60 * 1000000
def microsPerHour : ℤ := 3600 * 1000000
def microsPerDay : ℤ := 86400 * 1000000

structure PyDateTime where
  day : ℤ
  hour : ℕ
  minute : ℕ
  second : ℕ
  micro : ℕ
deriving DecidableEq

def toMicros (d : PyDateTime) : ℤ :=
  d.day * microsPerDay + d.hour * microsPerHour + d.minute * microsPerMin +
    d.second * microsPerSec + d.micro

def ofMicros (m : ℤ) : PyDateTime :=
  let rem := (Int.emod m microsPerDay).toNat
  { day := Int.ediv m microsPerDay
    hour := rem / 3600000000
    minute := rem % 3600000000 / 60000000
    second := rem % 60000000 / 1000000
    micro := rem % 1000000 }

/-- `dt - timedelta(microseconds=delta)`. -/
def dtSub (d : PyDateTime) (delta : ℤ) : PyDateTime := ofMicros (toMicros d - delta)

/-- `dt.replace(hour=h, minute=m, second=s, microsecond=us)`. -/
def dtReplaceTime (d : PyDateTime) (h m s us : ℕ) : PyDateTime :=
  { d with hour := h, minute := m, second := s, micro := us }

/-- `a <= b` on timezone-aware datetimes. -/
def dtLe (a b : PyDateTime) : Bool := toMicros a ≤ toMicros b

/-- Civil date → day number (Gregorian, day 0 = 1970-01-01). -/
def daysFromCivil (y : ℤ) (m d : ℕ) : ℤ :=
  let yAdj : ℤ := if m ≤ 2 then y - 1 else y
  let era : ℤ := Int.ediv yAdj 400
  let yoe : ℕ := (yAdj - era * 400).toNat
  let mp : ℕ := if m > 2 then m - 3 else m + 9
  let doy : ℕ := (153 * mp + 2) / 5 + d - 1
  let doe : ℕ := yoe * 365 + yoe / 4 - yoe / 100 + doy
  era * 146097 + (doe : ℤ) - 719468

/-- Day number → civil date (inverse of `daysFromCivil`). -/
def civilFromDays (z0 : ℤ) : ℤ × ℕ × ℕ :=
  let z := z0 + 719468
  let era : ℤ := Int.ediv z 146097
  let doe : ℕ := (z - era * 146097).toNat
  let yoe : ℕ := (doe - doe / 1460 + doe / 36524 - doe / 146096) / 365
  let y : ℤ := (yoe : ℤ) + era * 400
  let doy : ℕ := doe - (365 * yoe + yoe / 4 - yoe / 100)
  let mp : ℕ := (5 * doy + 2) / 153
  let d : ℕ := doy - (153 * mp + 2) / 5 + 1
  let m : ℕ := if mp < 10 then mp + 3 else mp - 9
  (if m ≤ 2 then y + 1 else y, m, d)

/-- `now.year`. -/
def dtYear (d : PyDateTime) : ℤ := (civilFromDays d.day).1

def daysInMonth (y : ℤ) (m : ℕ) : ℕ :=
  if m = 2 then
    if (Int.emod y 4 = 0 ∧ Int.emod y 100 ≠ 0) ∨ Int.emod y 400 = 0 then 29 else 28
  else if m = 4 ∨ m = 6 ∨ m = 9 ∨ m = 11 then 30
  else 31

/-- `datetime(y, mon, d, h, m)` with its `ValueError` as `none`. -/
def mkDatetime (y : ℤ) (mon d h mi : ℕ) : Option PyDateTime :=
  if 1 ≤ mon ∧ mon ≤ 12 ∧ 1 ≤ d ∧ d ≤ daysInMonth y mon ∧ h ≤ 23 ∧ mi ≤ 59 ∧
      1 ≤ y ∧ y ≤ 9999 then
    some ⟨daysFromCivil y mon d, h, mi, 0, 0⟩
  else none

/-- An opaque rendering of `dt.isoformat()` for storage cells. -/
def dtIso (d : PyDateTime) : String :=
  toString d.day ++ "T" ++ toString d.hour ++ ":" ++ toString d.minute ++ ":" ++
    toString d.second ++ "." ++ toString d.micro

/-! ### extractors.py — `parse_last_active_ru`

The parser works on the normalised text `raw.strip().lower().replace("ё","е")`
and is driven by substring tests and three regexes; the regex searches are
modelled by position-by-position matchers whose backtracking is spelled out
where the greedy first try can fail (`\d{1,2}` before `:`, the optional
numeral group, the optional unit suffixes). -/

/-- Unicode lowercasing restricted to the ASCII and Cyrillic letters this
parser can meet (Python `str.lower`). -/
def ruLower (c : Char) : Char :=
  if 'A' ≤ c ∧ c ≤ 'Z' then Char.ofNat (c.toNat + 32)
  else if 'А' ≤ c ∧ c ≤ 'Я' then Char.ofNat (c.toNat + 32)
  else if c = 'Ё' then 'ё'
  else c

/-- `raw.strip().lower().replace("ё", "е")`. -/
def normTxt (raw : String) : List Char :=
  ((stripChars raw.data).map ruLower).map (fun c => if c = 'ё' then 'е' else c)

/-- `needle in hay` (substring test). -/
def containsSub (needle : List Char) : List Char → Bool
  | [] => needle.isPrefixOf ([] : List Char)
  | c :: t => needle.isPrefixOf (c :: t) || containsSub needle t

def digitVal (c : Char) : ℕ := c.toNat - 48

def digitsToNat (ds : List Char) : ℕ := ds.foldl (fun n c => 10 * n + digitVal c) 0

def skipSpaces (l : List Char) : List Char := l.dropWhile Char.isWhitespace

/-- `(\d{1,2}):(\d{2})` anchored at the head.  The greedy two-digit hour is
tried first; if the two leading characters are digits but no `:` follows,
the one-digit backtrack would need `:` to match a digit, so the position
fails — as encoded. -/
def matchTimeAt (l : List Char) : Option (ℕ × ℕ) :=
  match l with
  | d1 :: d2 :: rest =>
    if d1.isDigit then
      if d2.isDigit then
        match rest with
        | ':' :: m1 :: m2 :: _ =>
          if m1.isDigit ∧ m2.isDigit then
            some (10 * digitVal d1 + digitVal d2, 10 * digitVal m1 + digitVal m2)
          else none
        | _ => none
      else if d2 = ':' then
        match rest with
        | m1 :: m2 :: _ =>
          if m1.isDigit ∧ m2.isDigit then
            some (digitVal d1, 10 * digitVal m1 + digitVal m2)
          else none
        | _ => none
      else none
    else none
  | _ => none

/-- `_RE_TIME.search`: leftmost match. -/
def findTime : List Char → Option (ℕ × ℕ)
  | [] => none
  | c :: t =>
    match matchTimeAt (c :: t) with
    | some r => some r
    | none => findTime t

/-- `\s*назад`. -/
def relTail (l : List Char) : Bool := ("назад".data).isPrefixOf (skipSpaces l)

/-- The unit alternation of `_RE_REL`, flattened into full spellings in the
regex's preference order (branch order, then greedy optional suffix):
`минут(?:у|а|ы)? | час(?:а|ов)? | д(?:ень|ня|ней) | сут(?:ки|ок)`. -/
def relUnitCands : List (List Char) :=
  [("минуту").data, ("минута").data, ("минуты").data, ("минут").data,
   ("часа").data, ("часов").data, ("час").data,
   ("день").data, ("дня").data, ("дней").data,
   ("сутки").data, ("суток").data]

/-- First unit spelling that matches here and lets `\s*назад` succeed
(regex backtracking over the alternation). -/
def firstUnit : List (List Char) → List Char → Option (List Char)
  | [], _ => none
  | u :: rest, l =>
    if u.isPrefixOf l ∧ relTail (l.drop u.length) then some u
    else firstUnit rest l

/-- `_RE_REL` anchored at the head: optional numeral (greedy; if the unit
fails after the digits, neither a shorter numeral nor dropping the group can
succeed because no unit starts with a digit), then the unit and `назад`.
Returns the captured numeral and the matched unit spelling. -/
def matchRelAt (l : List Char) : Option (Option ℕ × List Char) :=
  let ds := l.takeWhile Char.isDigit
  let rest := l.dropWhile Char.isDigit
  if ds ≠ [] then
    match firstUnit relUnitCands (skipSpaces rest) with
    | some u => some (some (digitsToNat ds), u)
    | none => none
  else
    match firstUnit relUnitCands l with
    | some u => some (none, u)
    | none => none

/-- `_RE_REL.search`: leftmost match. -/
def relSearch : List Char → Option (Option ℕ × List Char)
  | [] => none
  | c :: t =>
    match matchRelAt (c :: t) with
    | some r => some r
    | none => relSearch t

def ruMonths : List (List Char × ℕ) :=
  [(("января").data, 1), (("февраля").data, 2), (("марта").data, 3),
   (("апреля").data, 4), (("мая").data, 5), (("июня").data, 6),
   (("июля").data, 7), (("августа").data, 8), (("сентября").data, 9),
   (("октября").data, 10), (("ноября").data, 11), (("декабря").data, 12)]

def isRuLetter (c : Char) : Bool := 'а' ≤ c ∧ c ≤ 'я'

/-- `(?:\s+в\s+(\d{1,2}):(\d{2}))?` — the optional time suffix of the
absolute-date regex. -/
def matchAbsTime (l : List Char) : Option (ℕ × ℕ) :=
  match l with
  | c :: t =>
    if c.isWhitespace then
      match skipSpaces (c :: t) with
      | 'в' :: t2 =>
        match t2 with
        | c3 :: t3 =>
          if c3.isWhitespace then matchTimeAt (skipSpaces (c3 :: t3)) else none
        | [] => none
      | _ => none
    else none
  | [] => none

/-- `(?:\s+(\d{4}))?` — the optional year group; returns the year and the
remaining input (the original input when the group does not match). -/
def matchAbsYear (l : List Char) : Option ℕ × List Char :=
  match l with
  | c :: t =>
    if c.isWhitespace then
      let l2 := skipSpaces (c :: t)
      match l2 with
      | a :: b :: c2 :: d2 :: rest =>
        if a.isDigit ∧ b.isDigit ∧ c2.isDigit ∧ d2.isDigit then
          (some (digitsToNat [a, b, c2, d2]), rest)
        else (none, c :: t)
      | _ => (none, c :: t)
    else (none, c :: t)
  | [] => (none, [])

/-- The absolute-date regex anchored at the head:
`(\d{1,2})\s+([а-я]+)(?:\s+(\d{4}))?(?:\s+в\s+(\d{1,2}):(\d{2}))?`. -/
def matchAbsAt (l : List Char) : Option (ℕ × List Char × Option ℕ × Option (ℕ × ℕ)) :=
  match l with
  | d1 :: rest1 =>
    if d1.isDigit then
      let dayRest :=
        match rest1 with
        | d2 :: rest2 => if d2.isDigit then some (10 * digitVal d1 + digitVal d2, rest2)
                         else some (digitVal d1, rest1)
        | [] => some (digitVal d1, ([] : List Char))
      match dayRest with
      | some (day, r1) =>
        match r1 with
        | c :: t =>
          if c.isWhitespace then
            let r2 := skipSpaces (c :: t)
            let mon := r2.takeWhile isRuLetter
            let r3 := r2.dropWhile isRuLetter
            if mon ≠ [] then
              let yr := matchAbsYear r3
              some (day, mon, yr.1, matchAbsTime yr.2)
            else none
          else none
        | [] => none
      | none => none
    else none
  | [] => none

/-- Leftmost search of the absolute-date regex. -/
def absSearch : List Char → Option (ℕ × List Char × Option ℕ × Option (ℕ × ℕ))
  | [] => none
  | c :: t =>
    match matchAbsAt (c :: t) with
    | some r => some r
    | none => absSearch t

/-- The `5) Absolute` branch of the parser: search, month lookup (returning
`None` on an unknown month), year defaulting to the current year, time
defaulting to noon, `datetime(...)` with `ValueError → None`. -/
def parseAbsBranch (text : List Char) (now : PyDateTime) : Option PyDateTime :=
  match absSearch text with
  | none => none
  | some (d, monStr, yOpt, tOpt) =>
    match List.lookup monStr ruMonths with
    | none => none
    | some mon =>
      let y : ℤ := match yOpt with | some n => (n : ℤ) | none => dtYear now
      let hm := tOpt.getD (12, 0)
      mkDatetime y mon d hm.1 hm.2

/-- `parse_last_active_ru` (extractors.py). -/
def parse_last_active_ru (raw : String) (now : PyDateTime) : Option PyDateTime :=
  if raw = "" then none
  else
    let text := normTxt raw
    if containsSub (("сейчас").data) text then some now
    else if containsSub (("сегодня").data) text then
      match findTime text with
      | some hm => some (dtReplaceTime now hm.1 hm.2 0 0)
      | none => some now
    else if containsSub (("вчера").data) text then
      match findTime text with
      | some hm => some (dtReplaceTime (dtSub now microsPerDay) hm.1 hm.2 0 0)
      | none => some (dtReplaceTime (dtSub now microsPerDay) 12 0 0 0)
    else
      match relSearch text with
      | some numUnit =>
        let num := numUnit.1.getD 1
        if (("минут").data).isPrefixOf numUnit.2 then
          some (dtSub now ((num : ℤ) * microsPerMin))
        else if (("час").data).isPrefixOf numUnit.2 then
          some (dtSub now ((num : ℤ) * microsPerHour))
        else if (("сут").data).isPrefixOf numUnit.2 ∨
            (("д").data).isPrefixOf numUnit.2 then
          some (dtSub now ((num : ℤ) * microsPerDay))
        else parseAbsBranch text now
      | none => parseAbsBranch text now



/-! ### nash_scrape.py — per-page collector / opener and the paginator

The browser is the external collaborator: a SERP result card is its primary
URL plus the raw/parsed last-active reading
(`card_primary_url`, `extract_last_active_from_card`), and
`scrape_open_profile` is an oracle from the profile URL to the scraped row
and its `is_male` flag (the row returned by the real function is a pure
function of the rendered profile page, which the URL identifies).  `None`
values of `url`/`pid` are modelled as `""`, matching the source's truthiness
tests. -/

structure Card where
  url : String
  lastActiveRaw : Option String
  lastActiveAt : Option PyDateTime

/-- `is_recent = bool(last_dt and last_dt >= cutoff_dt)`. -/
def isRecent (lastDt : Option PyDateTime) (cutoff : PyDateTime) : Bool :=
  match lastDt with
  | none => false
  | some d => dtLe cutoff d

/-- `_ID_RE = /nyanya/[^/]+/(?P<id>\d+)(?:/|$)` anchored at the head.
The greedy digit run needs no backtracking: a shorter run would end at a
digit, which is neither `/` nor the end. -/
def matchIdAt (l : List Char) : Option (List Char) :=
  if (("/nyanya/").data).isPrefixOf l then
    let rest := l.drop 8
    let seg := rest.takeWhile (· ≠ '/')
    let rest2 := rest.dropWhile (· ≠ '/')
    if seg ≠ [] then
      match rest2 with
      | '/' :: rest3 =>
        let ds := rest3.takeWhile Char.isDigit
        let rest4 := rest3.dropWhile Char.isDigit
        if ds ≠ [] ∧ (rest4 = [] ∨ rest4.take 1 = ['/']) then some ds else none
      | _ => none
    else none
  else none

def idSearch : List Char → Option (List Char)
  | [] => none
  | c :: t =>
    match matchIdAt (c :: t) with
    | some r => some r
    | none => idSearch t

/-- `profile_id_from_url` (nash_scrape.py): numeric id from a
`/nyanya/<city>/<id>` URL, else `path.rstrip("/") or u`. -/
def profile_id_from_url (u : String) : String :=
  let path := (urlsplitModel u.data).path
  match idSearch path with
  | some ds => String.mk ds
  | none =>
    let p := String.mk (rstripSlash path)
    if p ≠ "" then p else u

/-- `pid = profile_id_from_url(url) if url else None`. -/
def pidOfCard (c : Card) : String :=
  if c.url ≠ "" then profile_id_from_url c.url else ""

/-- The lightweight refresh record enqueued for a known recent candidate. -/
def refreshRow (pidC : String) (c : Card) : Row :=
  [("profile_id", pidC),
   ("profile_url", canon_url c.url),
   ("last_active_raw", c.lastActiveRaw.getD ""),
   ("last_active_at", match c.lastActiveAt with | some d => dtIso d | none => "")]

/-- A queued full-scrape candidate of phase 1. -/
structure Candidate where
  index : ℕ
  url : String
  pid : String
  lastActiveRaw : Option String
  lastActiveAt : Option PyDateTime

structure CollectState where
  sink : List Row
  written : ℕ
  candidates : List Candidate

/-- Phase 1 of `scrape_recent_on_current_serp` (COLLECT, no navigation):
per card, skip non-recent/url-less cards; enqueue a refresh record and count
it as written when the canonical id is known; otherwise queue the candidate,
stopping the scan when the optional cap is reached (`break`). -/
def collectCards (cutoff : PyDateTime) (cap : Option ℕ) (seen : List String) :
    List Card → ℕ → CollectState → CollectState
  | [], _, st => st
  | c :: rest, i, st =>
    if ¬(isRecent c.lastActiveAt cutoff = true ∧ c.url ≠ "") then
      collectCards cutoff cap seen rest (i + 1) st
    else if canon_pid (pidOfCard c) ≠ "" ∧ canon_pid (pidOfCard c) ∈ seen then
      collectCards cutoff cap seen rest (i + 1)
        { st with
          sink := st.sink ++ [refreshRow (canon_pid (pidOfCard c)) c],
          written := st.written + 1 }
    else
      let st2 : CollectState :=
        { st with candidates := st.candidates ++
            [⟨i, c.url, pidOfCard c, c.lastActiveRaw, c.lastActiveAt⟩] }
      match cap with
      | some k =>
        if k ≤ st2.candidates.length then st2
        else collectCards cutoff cap seen rest (i + 1) st2
      | none => collectCards cutoff cap seen rest (i + 1) st2

/-- `set.add`. -/
def addSeen (s : List String) (x : String) : List String :=
  if x ∈ s then s else s ++ [x]

/-- The audit/identity mutations applied to a freshly scraped row before it
is appended to the sink. -/
def finalizeRow (c : Candidate) (row : Row) : Row :=
  let row := rset row "last_active_raw" (c.lastActiveRaw.getD "")
  let row := rset row "last_active_at"
    (match c.lastActiveAt with | some d => dtIso d | none => "")
  let row := if c.pid ≠ "" then rset row "profile_id" (canon_pid c.pid) else row
  if rget row "profile_url" ≠ "" then
    rset row "profile_url" (canon_url (rget row "profile_url"))
  else if c.url ≠ "" then rset row "profile_url" (canon_url c.url)
  else row

structure OpenState where
  sink : List Row
  seen : List String
  written : ℕ
  opened : List String

/-- Phase 2 (OPEN) for one queued candidate: navigate (`page.goto`, recorded
in `opened`), scrape and score; a male-flagged profile is discarded — not
appended, not counted, its raw pid added to the seen-set; otherwise the
finalised row is appended, the canonical pid recorded as seen and the
written count incremented. -/
def openStep (openProfile : String → Row × Bool) (st : OpenState) (c : Candidate) :
    OpenState :=
  let res := openProfile c.url
  if res.2 then
    { st with
      opened := st.opened ++ [c.url],
      seen := if c.pid ≠ "" then addSeen st.seen c.pid else st.seen }
  else
    { sink := st.sink ++ [finalizeRow c res.1],
      seen := if c.pid ≠ "" then addSeen st.seen (canon_pid c.pid) else st.seen,
      written := st.written + 1,
      opened := st.opened ++ [c.url] }

/-- `scrape_recent_on_current_serp` (nash_scrape.py): collect then open.
Returns the rows appended to the sink, the grown seen-set, the page's
written count, and the profile URLs navigated to. -/
def scrape_recent_on_current_serp (openProfile : String → Row × Bool)
    (cutoff : PyDateTime) (cap : Option ℕ) (seen : List String)
    (cards : List Card) : OpenState :=
  let col := collectCards cutoff cap seen cards 0 ⟨[], 0, []⟩
  col.candidates.foldl (openStep openProfile) ⟨col.sink, seen, col.written, []⟩

/-- `scrape_recent_across_pages` (nash_scrape.py): process listing pages in
order, flushing each page's rows to the sheet (a raising flush is caught by
the loop's `try/except`, logged and treated as zero counts, so pagination
continues); stop early when a page produced zero written candidates, when
the page cap is reached, or when there is no next page.  Returns the
per-visited-page written counts (in order) with the final sheet state and
seen-set. -/
def scrape_recent_across_pages (openProfile : String → Row × Bool)
    (cutoff : PyDateTime) (cap maxPages : Option ℕ) (new_only : Bool)
    (now : String) :
    List (List Card) → ℕ → List String → SheetState →
      List ℕ × SheetState × List String
  | [], _, seen, st => ([], st, seen)
  | page :: rest, pageIndex, seen, st =>
    let res := scrape_recent_on_current_serp openProfile cutoff cap seen page
    let st1 := if res.sink ≠ [] then upsertFlushState st res.sink new_only now else st
    if res.written = 0 then ([res.written], st1, res.seen)
    else
      match maxPages with
      | some m =>
        if m ≤ pageIndex then ([res.written], st1, res.seen)
        else
          let r := scrape_recent_across_pages openProfile cutoff cap maxPages
            new_only now rest (pageIndex + 1) res.seen st1
          (res.written :: r.1, r.2.1, r.2.2)
      | none =>
        let r := scrape_recent_across_pages openProfile cutoff cap maxPages
          new_only now rest (pageIndex + 1) res.seen st1
        (res.written :: r.1, r.2.1, r.2.2)

/-- A card the collector turns into a refresh record: recent, with a URL,
and with a known canonical id. -/
def refreshable (cutoff : PyDateTime) (seen : List String) (c : Card) : Bool :=
  isRecent c.lastActiveAt cutoff = true ∧ c.url ≠ "" ∧
    canon_pid (pidOfCard c) ≠ "" ∧ canon_pid (pidOfCard c) ∈ seen

/-- A card the collector queues for navigation: recent, with a URL, and not
skipped as already-known. -/
def openCandidate (cutoff : PyDateTime) (seen : List String) (c : Card) : Bool :=
  isRecent c.lastActiveAt cutoff = true ∧ c.url ≠ "" ∧
    ¬(canon_pid (pidOfCard c) ≠ "" ∧ canon_pid (pidOfCard c) ∈ seen)


/-! ## PART 2 — Theorems -/

/-! ### scorer.py — basic facts used by several claims -/

theorem clampFinal_bounds (s : ℚ) (cap : Bool) :
    1 ≤ clampFinal s cap ∧ clampFinal s cap ≤ 10 := by
  unfold clampFinal
  rcases cap with _ | _ <;> simp only [Bool.false_eq_true, if_false, if_true]
  · constructor
    · exact le_max_left _ _
    · exact max_le (by norm_num) (min_le_left _ _)
  · constructor
    · exact le_min (le_max_left _ _) (by norm_num)
    · exact le_trans (min_le_left _ _) (max_le (by norm_num) (min_le_left _ _))

theorem clampFinal_cap_le (s : ℚ) : clampFinal s true ≤ 3 := by
  unfold clampFinal
  simp only [if_true]
  exact min_le_right _ _

/-! ### Claim theorems for the adjustment engine and scoring gateway -/

/-- C2 (code bug evidence): at base score 5 with no age, no travel time and
authenticity 0.5, the adjustment engine returns 17/4 = 4.25 — a value that is
not an integer (denominator 4), although it does lie in [1,10].  This
contradicts the source's own return annotation
`-> tuple[int, list[tuple[str, int]]]` and the spec's "integer in [1,10]":
the code multiplies the running score by the authenticity factor and clamps,
but never rounds back to an integer. -/
theorem c2_nonintegral_score_at_failing_input :
    (apply_penalties_with_details 5 none none (some (1/2)) false false false).1 = 17/4 ∧
    (¬ ∃ n : ℤ, (apply_penalties_with_details 5 none none (some (1/2))
        false false false).1 = (n : ℚ)) ∧
    1 ≤ (apply_penalties_with_details 5 none none (some (1/2)) false false false).1 ∧
    (apply_penalties_with_details 5 none none (some (1/2)) false false false).1 ≤ 10 := by
  have h : (apply_penalties_with_details 5 none none (some (1/2))
      false false false).1 = 17/4 := by
    norm_num [apply_penalties_with_details, ageDelta, travelDelta, recsDelta,
      audioDelta, authApply, clamp01, authFactor, ageCapTo3, clampFinal,
      min_def, max_def]
  refine ⟨h, ?_, by rw [h]; norm_num, by rw [h]; norm_num⟩
  rw [h]
  rintro ⟨n, hn⟩
  have h4 : (17 : ℚ) = 4 * (n : ℚ) := by linarith
  have h5 : (17 : ℤ) = 4 * n := by exact_mod_cast h4
  omega

/-- C3: whenever the age input is at least 65, the engine records the −2 age
delta in the audit trail and the returned final score is at most 3 (and at
least 1), no matter how large the base score and the other bonuses are. -/
theorem c3_age65_caps_final_score_at_3
    (fit_base : ℤ) (travel_time : Option ℤ) (authenticity : Option ℚ)
    (recs audio fairy : Bool) (a : ℤ) (h : 65 ≤ a) :
    (apply_penalties_with_details fit_base (some a) travel_time authenticity
        recs audio fairy).1 ≤ 3 ∧
    1 ≤ (apply_penalties_with_details fit_base (some a) travel_time authenticity
        recs audio fairy).1 ∧
    ("Возраст ≥ 65: -2 (потолок 3)", (-2 : ℚ)) ∈
      (apply_penalties_with_details fit_base (some a) travel_time authenticity
        recs audio fairy).2 := by
  have h45 : ¬ a < 45 := by omega
  have h55 : ¬ (55 ≤ a ∧ a ≤ 64) := by omega
  unfold apply_penalties_with_details
  simp only [ageCapTo3, ageAdjustments, if_neg h45, if_neg h55, if_pos h]
  refine ⟨clampFinal_cap_le _, (clampFinal_bounds _ _).1, ?_⟩
  simp

/-- Witness for C3 at the spec's own test vector (base 7, age 70, commute 95,
authenticity 0.4, recommendations present). -/
theorem c3_age65_caps_final_score_at_3_witness :
    (apply_penalties_with_details 7 (some 70) (some 95) (some (2/5))
        true false false).1 ≤ 3 ∧
    1 ≤ (apply_penalties_with_details 7 (some 70) (some 95) (some (2/5))
        true false false).1 ∧
    ("Возраст ≥ 65: -2 (потолок 3)", (-2 : ℚ)) ∈
      (apply_penalties_with_details 7 (some 70) (some 95) (some (2/5))
        true false false).2 :=
  c3_age65_caps_final_score_at_3 7 (some 95) (some (2/5)) true false false 70 (by norm_num)

/-- C9: when the API key is missing/empty or the scoring call fails with any
exception (unreachable service, malformed or unparseable response), the
scoring gateway returns the sentinel result — score 0, exactly one
explanatory reason, not-male — instead of propagating the failure (the
modelled function is total, mirroring the source's catch-all `except`). -/
theorem c9_scoring_failure_returns_sentinel
    (api_key : Option String) (call : Except ApiError ModelData)
    (profile : ProfileFields)
    (h : api_key = none ∨ ∃ e, call = .error e) :
    (score_with_chatgpt api_key call profile).1 = 0 ∧
    (score_with_chatgpt api_key call profile).2.1.length = 1 ∧
    (score_with_chatgpt api_key call profile).2.2 = false := by
  rcases h with h | ⟨e, he⟩
  · subst h
    exact ⟨rfl, rfl, rfl⟩
  · subst he
    cases api_key with
    | none => exact ⟨rfl, rfl, rfl⟩
    | some k => exact ⟨rfl, rfl, rfl⟩

/-- Witness for C9: a concrete failed call with a set API key. -/
theorem c9_scoring_failure_returns_sentinel_witness :
    (score_with_chatgpt (some "sk-test")
        (.error ⟨"Connection error", none, none⟩)
        ⟨none, none, .other, false, false⟩).1 = 0 ∧
    (score_with_chatgpt (some "sk-test")
        (.error ⟨"Connection error", none, none⟩)
        ⟨none, none, .other, false, false⟩).2.1.length = 1 ∧
    (score_with_chatgpt (some "sk-test")
        (.error ⟨"Connection error", none, none⟩)
        ⟨none, none, .other, false, false⟩).2.2 = false :=
  c9_scoring_failure_returns_sentinel (some "sk-test")
    (.error ⟨"Connection error", none, none⟩)
    ⟨none, none, .other, false, false⟩
    (Or.inr ⟨⟨"Connection error", none, none⟩, rfl⟩)

/-! Helper lemmas about the splitting primitives. -/

theorem splitAtFirst_not_mem {c : Char} {l : List Char} (h : c ∉ l) :
    splitAtFirst c l = (l, none) := by
  induction l with
  | nil => rfl
  | cons x xs ih =>
    have hx : x ≠ c := fun hxc => h (hxc ▸ List.mem_cons_self x xs)
    have hxs : c ∉ xs := fun hm => h (List.mem_cons_of_mem x hm)
    simp [splitAtFirst, hx, ih hxs]

theorem splitAtFirst_append {c : Char} {a b : List Char} (h : c ∉ a) :
    splitAtFirst c (a ++ c :: b) = (a, some b) := by
  induction a with
  | nil => simp [splitAtFirst]
  | cons x xs ih =>
    have hx : x ≠ c := fun hxc => h (hxc ▸ List.mem_cons_self x xs)
    have hxs : c ∉ xs := fun hm => h (List.mem_cons_of_mem x hm)
    simp [splitAtFirst, hx, ih hxs]

theorem splitOnSub_sep_at {a b : List Char} (h : ':' ∉ a) :
    splitOnSub ("://".data) (a ++ "://".data ++ b) = some (a, b) := by
  induction a with
  | nil =>
    show splitOnSub ("://".data) ("://".data ++ b) = some ([], b)
    have hpre : ("://".data).isPrefixOf ("://".data ++ b) = true := by
      simp [List.isPrefixOf_iff_prefix]
    cases hb : ("://".data ++ b) with
    | nil => simp at hb
    | cons y ys =>
      rw [← hb]
      show (if ("://".data).isPrefixOf ("://".data ++ b) = true then _ else _) = _
      · rw [if_pos hpre]
        simp
  | cons x xs ih =>
    have hx : x ≠ ':' := fun hxc => h (hxc ▸ List.mem_cons_self x xs)
    have hxs : ':' ∉ xs := fun hm => h (List.mem_cons_of_mem x hm)
    have hnp : ("://".data).isPrefixOf (x :: (xs ++ "://".data ++ b)) = false := by
      rw [← Bool.not_eq_true, List.isPrefixOf_iff_prefix]
      intro hp
      exact hx (List.cons_prefix_cons.mp hp).1.symm
    have hrec := ih hxs
    show splitOnSub ("://".data) ((x :: xs) ++ "://".data ++ b) = some (x :: xs, b)
    simp only [List.cons_append]
    simp only [splitOnSub, hnp, Bool.false_eq_true, if_false]
    simp only [List.append_assoc] at hrec ⊢
    rw [hrec]

theorem takeWhile_dropWhile_host {host path : List Char} (hh : '/' ∉ host)
    (hp : path = [] ∨ ∃ t, path = '/' :: t) :
    (host ++ path).takeWhile (· ≠ '/') = host ∧
      (host ++ path).dropWhile (· ≠ '/') = path := by
  induction host with
  | nil =>
    rcases hp with hp | ⟨t, hp⟩ <;> subst hp
    · exact ⟨rfl, rfl⟩
    · refine ⟨?_, ?_⟩
      · rw [List.nil_append]
        exact List.takeWhile_cons_of_neg (by simp)
      · rw [List.nil_append]
        exact List.dropWhile_cons_of_neg (by simp)
  | cons x xs ih =>
    have hx : x ≠ '/' := fun hxc => hh (hxc ▸ List.mem_cons_self x xs)
    have hxs : '/' ∉ xs := fun hm => hh (List.mem_cons_of_mem x hm)
    obtain ⟨ht, hd⟩ := ih hxs
    have htc : List.takeWhile (fun c => decide (c ≠ '/')) (x :: (xs ++ path)) =
        x :: List.takeWhile (fun c => decide (c ≠ '/')) (xs ++ path) := by
      rw [List.takeWhile_cons]
      simp [hx]
    have hdc : List.dropWhile (fun c => decide (c ≠ '/')) (x :: (xs ++ path)) =
        List.dropWhile (fun c => decide (c ≠ '/')) (xs ++ path) := by
      rw [List.dropWhile_cons]
      simp [hx]
    constructor
    · rw [List.cons_append, htc, ht]
    · rw [List.cons_append, hdc, hd]

theorem rstripSlash_front (l : List Char) : rstripSlash l <+: l := by
  have h : rstripSlash l = List.rdropWhile (· = '/') l := rfl
  rw [h]
  exact List.rdropWhile_prefix _ l

theorem prefix_take_one {l p : List Char} (h : p <+: l) (hne : p ≠ []) :
    l.take 1 = p.take 1 := by
  rcases h with ⟨t, ht⟩
  subst ht
  cases p with
  | nil => exact absurd rfl hne
  | cons x xs => simp

/-- C8 counterexample: on a URL whose path ends in two slashes, `canon_url`
strips both of them, not exactly one as the claim states (the source uses
`path.rstrip("/")`, removing every trailing slash). -/
theorem c8_counterexample_strips_all_trailing_slashes :
    canon_url "https://x/p/1//" = "https://x/p/1" ∧
    canon_url "https://x/p/1//" ≠ "https://x/p/1/" := by
  constructor <;> decide

/-- C8 (amended): `canon_url` drops the query string and the fragment,
strips **all** trailing path slashes, and preserves scheme, host and path
otherwise; in particular the spec's example
`normalize_url("https://x/p/1/") = normalize_url("https://x/p/1?ref=abc")`
holds.  The hypotheses say that the argument is a well-formed absolute URL
split into its components (lower-case non-empty scheme, non-empty host,
path starting with `/`, no stray delimiter characters). -/
theorem c8_canon_url_amended
    (scheme host path query frag : List Char)
    (hs0 : scheme ≠ []) (hlow : scheme.map Char.toLower = scheme)
    (hs2 : '#' ∉ scheme) (hs3 : '?' ∉ scheme) (hs4 : ':' ∉ scheme)
    (hh0 : host ≠ []) (hh1 : '#' ∉ host) (hh2 : '?' ∉ host) (hh3 : '/' ∉ host)
    (hp0 : path = [] ∨ ∃ t, path = '/' :: t) (hp1 : '#' ∉ path) (hp2 : '?' ∉ path)
    (hq1 : '#' ∉ query) :
    canon_url (String.mk (scheme ++ "://".data ++ host ++ path ++
        '?' :: query ++ '#' :: frag))
      = String.mk (scheme ++ "://".data ++ host ++ rstripSlash path) ∧
    canon_url "https://x/p/1/" = canon_url "https://x/p/1?ref=abc" := by
  refine ⟨?_, by decide⟩
  set A : List Char := scheme ++ "://".data ++ host ++ path ++ '?' :: query with hA
  set L : List Char := A ++ '#' :: frag with hL
  have hsep2 : '#' ∉ "://".data := by decide
  have hsep3 : '?' ∉ "://".data := by decide
  have h36 : '#' ∉ ('?' :: query) := by
    intro h
    rcases List.mem_cons.mp h with h | h
    · exact absurd h (by decide)
    · exact hq1 h
  have hAhash : '#' ∉ A := by
    rw [hA]
    intro h
    rcases List.mem_append.mp h with h | h
    · rcases List.mem_append.mp h with h | h
      · rcases List.mem_append.mp h with h | h
        · rcases List.mem_append.mp h with h | h
          · exact hs2 h
          · exact hsep2 h
        · exact hh1 h
      · exact hp1 h
    · exact h36 h
  have hLne : L ≠ [] := by
    simp only [hL]
    intro h
    exact absurd h (by simp)
  have hstr : String.mk L ≠ "" := by
    intro h
    exact hLne (congrArg String.data h)
  unfold canon_url
  rw [if_neg hstr]
  have hdata : (String.mk L).data = L := rfl
  have h1 : splitAtFirst '#' L = (A, some frag) := splitAtFirst_append hAhash
  set B : List Char := scheme ++ "://".data ++ host ++ path with hB
  have hBq : '?' ∉ B := by
    rw [hB]
    intro h
    rcases List.mem_append.mp h with h | h
    · rcases List.mem_append.mp h with h | h
      · rcases List.mem_append.mp h with h | h
        · exact hs3 h
        · exact hsep3 h
      · exact hh2 h
    · exact hp2 h
  have hAB : A = B ++ '?' :: query := by simp only [hA, hB, List.append_assoc]
  have h2 : splitAtFirst '?' A = (B, some query) := by
    rw [hAB]; exact splitAtFirst_append hBq
  have hBsplit : B = scheme ++ "://".data ++ (host ++ path) := by
    simp only [hB, List.append_assoc]
  have h3 : splitOnSub ("://".data) B = some (scheme, host ++ path) := by
    rw [hBsplit]
    exact splitOnSub_sep_at hs4
  have htw := takeWhile_dropWhile_host hh3 hp0
  have hsplitModel : urlsplitModel L = ⟨scheme, host, path⟩ := by
    unfold urlsplitModel
    rw [h1]
    simp only
    rw [h2]
    simp only
    rw [h3]
    simp only [htw.1, htw.2, hlow]
  show String.mk
      (urlunsplitModel (urlsplitModel (String.mk L).data).scheme
        (urlsplitModel (String.mk L).data).netloc
        (rstripSlash (urlsplitModel (String.mk L).data).path)) = _
  rw [hdata, hsplitModel]
  simp only
  have hrs : rstripSlash path = [] ∨ (rstripSlash path).take 1 = ['/'] := by
    by_cases hnil : rstripSlash path = []
    · exact Or.inl hnil
    · right
      have h1' := prefix_take_one (rstripSlash_front path) hnil
      rcases hp0 with hp | ⟨t, hp⟩
      · subst hp
        exact absurd rfl hnil
      · subst hp
        rw [← h1']
        simp
  have hinner :
      (if rstripSlash path ≠ [] ∧ (rstripSlash path).take 1 ≠ "/".data
        then '/' :: rstripSlash path else rstripSlash path) = rstripSlash path := by
    rcases hrs with h | h
    · rw [if_neg]; simp [h]
    · rw [if_neg]
      intro hc
      exact hc.2 (by simpa using h)
  unfold urlunsplitModel
  simp only [hinner]
  rw [if_pos (Or.inl hh0), if_pos hs0]
  simp only [List.append_assoc, List.cons_append, List.nil_append]


/-- Witness for C8 (amended) at concrete URL components. -/
theorem c8_canon_url_amended_witness :
    canon_url (String.mk ("https".data ++ "://".data ++ "x".data ++ "/p/1//".data ++
        '?' :: "ref=abc".data ++ '#' :: "f".data))
      = String.mk ("https".data ++ "://".data ++ "x".data ++ rstripSlash ("/p/1//".data)) ∧
    canon_url "https://x/p/1/" = canon_url "https://x/p/1?ref=abc" :=
  c8_canon_url_amended "https".data "x".data "/p/1//".data "ref=abc".data "f".data
    (by decide) (by decide) (by decide) (by decide) (by decide) (by decide)
    (by decide) (by decide) (by decide) (Or.inr ⟨"p/1//".data, by decide⟩)
    (by decide) (by decide) (by decide)

/-! ### Row/dict lemmas -/

theorem rget_rset_self (r : Row) (k v : String) : rget (rset r k v) k = v := by
  induction r with
  | nil => simp [rget, rset, List.lookup]
  | cons kv rest ih =>
    obtain ⟨k', v'⟩ := kv
    by_cases h : k' = k
    · subst h
      simp [rget, rset, List.lookup]
    · simp only [rset, if_neg h]
      show rget ((k', v') :: rset rest k v : Row) k = v
      have hne : (k == k') = false := by
        simp [beq_iff_eq]
        exact fun he => h he.symm
      simp only [rget, List.lookup, hne] at ih ⊢
      exact ih

theorem rget_rset_ne (r : Row) (k k' v : String) (h : k ≠ k') :
    rget (rset r k v) k' = rget r k' := by
  induction r with
  | nil =>
    simp only [rget, rset, List.lookup]
    have : (k' == k) = false := by
      simp [beq_iff_eq]
      exact fun he => h he.symm
    simp [this]
  | cons kv rest ih =>
    obtain ⟨k0, v0⟩ := kv
    by_cases h0 : k0 = k
    · subst h0
      have h1 : (k' == k0) = false := by
        simp [beq_iff_eq]
        exact fun he => h he.symm
      simp only [rset, if_pos rfl]
      simp [rget, List.lookup, h1]
    · simp only [rset, if_neg h0]
      by_cases h2 : k0 = k'
      · subst h2
        simp [rget, List.lookup]
      · have h3 : (k' == k0) = false := by
          simp [beq_iff_eq]
          exact fun he => h2 he.symm
        simp only [rget, List.lookup, h3] at ih ⊢
        exact ih

theorem rhas_rset_self (r : Row) (k v : String) : rhas (rset r k v) k = true := by
  induction r with
  | nil => simp [rhas, rset, List.lookup]
  | cons kv rest ih =>
    obtain ⟨k', v'⟩ := kv
    by_cases h : k' = k
    · subst h
      simp [rhas, rset, List.lookup]
    · have hne : (k == k') = false := by
        simp [beq_iff_eq]
        exact fun he => h he.symm
      simp only [rset, if_neg h]
      simp only [rhas, List.lookup, hne] at ih ⊢
      exact ih

theorem rhas_rset_ne (r : Row) (k k' v : String) (h : k ≠ k') :
    rhas (rset r k v) k' = rhas r k' := by
  induction r with
  | nil =>
    have : (k' == k) = false := by
      simp [beq_iff_eq]
      exact fun he => h he.symm
    simp [rhas, rset, List.lookup, this]
  | cons kv rest ih =>
    obtain ⟨k0, v0⟩ := kv
    by_cases h0 : k0 = k
    · subst h0
      have h1 : (k' == k0) = false := by
        simp [beq_iff_eq]
        exact fun he => h he.symm
      simp only [rset, if_pos rfl]
      simp [rhas, List.lookup, h1]
    · simp only [rset, if_neg h0]
      by_cases h2 : k0 = k'
      · subst h2
        simp [rhas, List.lookup]
      · have h3 : (k' == k0) = false := by
          simp [beq_iff_eq]
          exact fun he => h2 he.symm
        simp only [rhas, List.lookup, h3] at ih ⊢
        exact ih

theorem rget_rsetdefault_ne (r : Row) (k k' v : String) (h : k ≠ k') :
    rget (rsetdefault r k v) k' = rget r k' := by
  unfold rsetdefault
  by_cases hh : rhas r k
  · simp [hh]
  · simp only [hh, Bool.false_eq_true, if_false]
    exact rget_rset_ne r k k' v h

theorem rhas_rsetdefault_ne (r : Row) (k k' v : String) (h : k ≠ k') :
    rhas (rsetdefault r k v) k' = rhas r k' := by
  unfold rsetdefault
  by_cases hh : rhas r k
  · simp [hh]
  · simp only [hh, Bool.false_eq_true, if_false]
    exact rhas_rset_ne r k k' v h

/-! ### C1 lemma chain: machine updates never touch non-allow-listed cells -/

theorem stripMachine_rset_mem (r : Row) (k v : String)
    (h : k ∈ MACHINE_UPDATE_COLS) :
    stripMachineCols (rset r k v) = stripMachineCols r := by
  induction r with
  | nil =>
    simp [stripMachineCols, rset, List.filter_cons, h]
  | cons kv rest ih =>
    obtain ⟨k', v'⟩ := kv
    by_cases h0 : k' = k
    · subst h0
      simp only [rset, if_pos rfl]
      simp [stripMachineCols, List.filter_cons, h]
    · simp only [rset, if_neg h0]
      simp only [stripMachineCols, List.filter_cons] at ih ⊢
      rw [ih]

theorem stripMachine_writeRowCells (r : Row) (cells : List (String × String))
    (h : ∀ kv ∈ cells, kv.1 ∈ MACHINE_UPDATE_COLS) :
    stripMachineCols (writeRowCells r cells) = stripMachineCols r := by
  induction cells generalizing r with
  | nil => rfl
  | cons c cs ih =>
    have hc : c.1 ∈ MACHINE_UPDATE_COLS := h c (List.mem_cons_self c cs)
    have hcs : ∀ kv ∈ cs, kv.1 ∈ MACHINE_UPDATE_COLS :=
      fun kv hkv => h kv (List.mem_cons_of_mem c hkv)
    show stripMachineCols (writeRowCells (rset r c.1 c.2) cs) = stripMachineCols r
    rw [ih (rset r c.1 c.2) hcs, stripMachine_rset_mem r c.1 c.2 hc]

theorem updateCells_keys (data : Row) :
    ∀ kv ∈ updateCells data, kv.1 ∈ MACHINE_UPDATE_COLS := by
  intro kv h
  rcases List.mem_filterMap.mp h with ⟨col, hcol, heq⟩
  by_cases hc : col ∈ NANNIES_HEADERS ∧ rhas data col
  · rw [if_pos hc] at heq
    cases heq
    exact hcol
  · rw [if_neg hc] at heq
    cases heq

theorem map_strip_modifyRowAt (sheet : List Row) (i : ℕ) (f : Row → Row)
    (h : ∀ r, stripMachineCols (f r) = stripMachineCols r) :
    (modifyRowAt sheet i f).map stripMachineCols = sheet.map stripMachineCols := by
  induction sheet generalizing i with
  | nil => rfl
  | cons r rest ih =>
    cases i with
    | zero => simp [modifyRowAt, h r]
    | succ n => simp [modifyRowAt, ih n]

theorem map_strip_applyRowUpdate (sheet : List Row) (idx : ℤ) (data : Row) :
    (applyRowUpdate sheet idx data).map stripMachineCols =
      sheet.map stripMachineCols := by
  unfold applyRowUpdate
  by_cases h : 2 ≤ idx
  · rw [if_pos h]
    exact map_strip_modifyRowAt _ _ _
      (fun r => stripMachine_writeRowCells r (updateCells data) (updateCells_keys data))
  · rw [if_neg h]

theorem map_strip_batch_fold (updates : List (ℤ × Row)) (sheet : List Row) :
    (updates.foldl (fun s u => applyRowUpdate s u.1 u.2) sheet).map stripMachineCols =
      sheet.map stripMachineCols := by
  induction updates generalizing sheet with
  | nil => rfl
  | cons u us ih =>
    show ((us.foldl _ (applyRowUpdate sheet u.1 u.2)).map stripMachineCols) = _
    rw [ih (applyRowUpdate sheet u.1 u.2), map_strip_applyRowUpdate]

theorem syncStep_sheet (s : SheetState) (r : Row) : (syncStep s r).sheet = s.sheet := by
  unfold syncStep
  by_cases h1 : canon_pid (rget r "profile_id") = ""
  · simp [h1]
  · by_cases h2 : ((s.idToRow.lookup (canon_pid (rget r "profile_id"))).isSome : Bool) <;>
      by_cases h3 : rget r "profile_url" ≠ "" <;>
      simp [h1, h2, h3]

theorem syncCtx_sheet (processed : List Row) (st : SheetState) :
    (syncCtx st processed).sheet = st.sheet := by
  induction processed generalizing st with
  | nil => rfl
  | cons r rest ih =>
    show (syncCtx (syncStep st r) rest).sheet = st.sheet
    rw [ih, syncStep_sheet]

/-- C1: a machine write (`upsert_nannies` with updates allowed) only ever
touches the fixed allow-list columns of existing rows, whether the call
returns or the batch update raises.  Stated as: outside the allow-list, the
cells of the worksheet rows after the call are exactly the old rows' cells
plus the appended new rows' cells (up to the final re-sort's reordering on
the returning path); the allow-list is exactly {last_active_raw,
last_active_at, last_seen_at, profile_url}; and the human-owned columns
status, notes and last_contacted_at are not in it — so no machine write
ever modifies them on an existing record. -/
theorem c1_machine_writes_never_touch_human_fields
    (st : SheetState) (scraped : List Row) (now : String) :
    List.Perm ((wsRowsAfterUpsert (upsert_nannies st scraped false now)).map
        stripMachineCols)
      (st.sheet.map stripMachineCols ++
        (upsertPlan st scraped false now).toInsert.map
          (fun r => stripMachineCols (mkSheetRow r))) ∧
    MACHINE_UPDATE_COLS =
      ["last_active_raw", "last_active_at", "last_seen_at", "profile_url"] ∧
    ∀ c ∈ HUMAN_NANNIES_HEADERS, c ∉ MACHINE_UPDATE_COLS := by
  refine ⟨?_, rfl, by decide⟩
  by_cases hcond : ((upsertPlan st scraped false now).toUpdate.filter
      (fun u => updateCells u.2 ≠ ([] : Row))).any (fun u => decide (u.1 < 1)) = true
  · have h : upsert_nannies st scraped false now =
        Except.error ("IncorrectCellLabel",
          st.sheet ++ (upsertPlan st scraped false now).toInsert.map mkSheetRow) := by
      simp only [upsert_nannies, append_new_rows, Bool.false_eq_true, if_false]
      rw [show batch_update_machine_fields
          (st.sheet ++ (upsertPlan st scraped false now).toInsert.map mkSheetRow)
          (upsertPlan st scraped false now).toUpdate = Except.error "IncorrectCellLabel"
        from by unfold batch_update_machine_fields; rw [if_pos hcond]]
    rw [h]
    show List.Perm ((st.sheet ++
        (upsertPlan st scraped false now).toInsert.map mkSheetRow).map stripMachineCols) _
    rw [List.map_append, List.map_map]
    exact List.Perm.refl _
  · have h : upsert_nannies st scraped false now =
        Except.ok (syncCtx
          (SheetState.mk (sort_by_score
              ((upsertPlan st scraped false now).toUpdate.foldl
                (fun s u => applyRowUpdate s u.1 u.2)
                (st.sheet ++ (upsertPlan st scraped false now).toInsert.map mkSheetRow)))
            st.idToRow st.urlsById)
            (scraped.filterMap (normalizeScrapedRow now)),
          (upsertPlan st scraped false now).toInsert.length,
          ((upsertPlan st scraped false now).toUpdate.filter
            (fun u => updateCells u.2 ≠ ([] : Row))).length) := by
      simp only [upsert_nannies, append_new_rows, Bool.false_eq_true, if_false]
      rw [show batch_update_machine_fields
          (st.sheet ++ (upsertPlan st scraped false now).toInsert.map mkSheetRow)
          (upsertPlan st scraped false now).toUpdate =
          Except.ok
            ((upsertPlan st scraped false now).toUpdate.foldl
              (fun s u => applyRowUpdate s u.1 u.2)
              (st.sheet ++ (upsertPlan st scraped false now).toInsert.map mkSheetRow),
             ((upsertPlan st scraped false now).toUpdate.filter
               (fun u => updateCells u.2 ≠ ([] : Row))).length)
        from by unfold batch_update_machine_fields; rw [if_neg hcond]]
    rw [h]
    have hsheet : wsRowsAfterUpsert (Except.ok (α := SheetState × ℕ × ℕ) (syncCtx
        (SheetState.mk (sort_by_score
            ((upsertPlan st scraped false now).toUpdate.foldl
              (fun s u => applyRowUpdate s u.1 u.2)
              (st.sheet ++ (upsertPlan st scraped false now).toInsert.map mkSheetRow)))
          st.idToRow st.urlsById)
          (scraped.filterMap (normalizeScrapedRow now)),
        (upsertPlan st scraped false now).toInsert.length,
        ((upsertPlan st scraped false now).toUpdate.filter
          (fun u => updateCells u.2 ≠ ([] : Row))).length)) =
        sort_by_score
          ((upsertPlan st scraped false now).toUpdate.foldl
            (fun s u => applyRowUpdate s u.1 u.2)
            (st.sheet ++ (upsertPlan st scraped false now).toInsert.map mkSheetRow)) := by
      show (syncCtx _ _).sheet = _
      exact syncCtx_sheet _ _
    rw [hsheet]
    have hp := List.perm_insertionSort (fun a b => scoreKey b ≤ scoreKey a)
      ((upsertPlan st scraped false now).toUpdate.foldl
        (fun s u => applyRowUpdate s u.1 u.2)
        (st.sheet ++ (upsertPlan st scraped false now).toInsert.map mkSheetRow))
    refine (hp.map stripMachineCols).trans ?_
    rw [map_strip_batch_fold, List.map_append, List.map_map]
    exact List.Perm.refl _

/-! ### C4 lemma chain -/

theorem digit_not_ws (c : Char) (h : c.isDigit = true) : c.isWhitespace = false := by
  cases hw : c.isWhitespace
  · rfl
  · exfalso
    simp only [Char.isWhitespace, Bool.or_eq_true, decide_eq_true_eq] at hw
    rcases hw with ((hw | hw) | hw) | hw <;>
      (subst hw; exact absurd h (by decide))

theorem stripChars_all_digits (l : List Char) (h : ∀ c ∈ l, c.isDigit = true) :
    stripChars l = l := by
  unfold stripChars
  have key : ∀ (m : List Char), (∀ c ∈ m, c.isDigit = true) →
      m.dropWhile Char.isWhitespace = m := by
    intro m hm
    apply List.dropWhile_eq_self_iff.mpr
    intro hl
    have hmem : m.get ⟨0, hl⟩ ∈ m := m.get_mem 0 hl
    rw [digit_not_ws _ (hm _ hmem)]
    simp
  rw [key l h, key l.reverse (fun c hc => h c (List.mem_reverse.mp hc)),
    List.reverse_reverse]

theorem canon_pid_idem (s : String) : canon_pid (canon_pid s) = canon_pid s := by
  unfold canon_pid
  have hdig : ∀ c ∈ (stripChars s.data).filter Char.isDigit, c.isDigit = true :=
    fun c hc => List.of_mem_filter hc
  have hdata : (String.mk ((stripChars s.data).filter Char.isDigit)).data =
      (stripChars s.data).filter Char.isDigit := rfl
  rw [hdata, stripChars_all_digits _ hdig, List.filter_filter]
  congr 1
  apply List.filter_congr
  intro c hc
  simp [Bool.and_self]

theorem lookup_append_none {β : Type} {l₁ l₂ : List (String × β)} {k : String}
    (h : List.lookup k l₁ = none) : List.lookup k (l₁ ++ l₂) = List.lookup k l₂ := by
  induction l₁ with
  | nil => rfl
  | cons e rest ih =>
    obtain ⟨k', v'⟩ := e
    by_cases he : k = k'
    · subst he
      simp [List.lookup] at h
    · have hb : (k == k') = false := beq_eq_false_iff_ne.mpr he
      rw [List.cons_append]
      simp only [List.lookup, hb] at h ⊢
      exact ih h

theorem lookup_append_some {β : Type} {l₁ l₂ : List (String × β)} {k : String} {v : β}
    (h : List.lookup k l₁ = some v) : List.lookup k (l₁ ++ l₂) = some v := by
  induction l₁ with
  | nil => simp [List.lookup] at h
  | cons e rest ih =>
    obtain ⟨k', v'⟩ := e
    by_cases he : k = k'
    · subst he
      rw [List.cons_append]
      simp only [List.lookup, beq_self_eq_true] at h ⊢
      exact h
    · have hb : (k == k') = false := beq_eq_false_iff_ne.mpr he
      rw [List.cons_append]
      simp only [List.lookup, hb] at h ⊢
      exact ih h

theorem setByKey_mem {α β : Type} [DecidableEq α] (l : List (α × β)) (k : α) (v : β) :
    ∀ e ∈ setByKey l k v, e ∈ l ∨ e = (k, v) := by
  induction l with
  | nil =>
    intro e he
    simp only [setByKey] at he
    exact Or.inr (List.mem_singleton.mp he)
  | cons kv rest ih =>
    obtain ⟨k', v'⟩ := kv
    intro e he
    by_cases h0 : k' = k
    · simp only [setByKey, if_pos h0] at he
      rcases List.mem_cons.mp he with he | he
      · exact Or.inr he
      · exact Or.inl (List.mem_cons_of_mem _ he)
    · simp only [setByKey, if_neg h0] at he
      rcases List.mem_cons.mp he with he | he
      · exact Or.inl (he ▸ List.mem_cons_self _ _)
      · rcases ih e he with h | h
        · exact Or.inl (List.mem_cons_of_mem _ h)
        · exact Or.inr h

theorem rget_rsetdefault_absent (r : Row) (k v : String) (h : rhas r k = false) :
    rget (rsetdefault r k v) k = v := by
  unfold rsetdefault
  rw [h]
  simp only [Bool.false_eq_true, if_false]
  exact rget_rset_self r k v

theorem rhas_rsetdefault_absent (r : Row) (k v : String) (h : rhas r k = false) :
    rhas (rsetdefault r k v) k = true := by
  unfold rsetdefault
  rw [h]
  simp only [Bool.false_eq_true, if_false]
  exact rhas_rset_self r k v

theorem normUrl_other (r : Row) (k : String) (hk : ("profile_url" : String) ≠ k) :
    rget (normUrl r) k = rget r k ∧ rhas (normUrl r) k = rhas r k := by
  unfold normUrl
  by_cases h1 : rget r "profile_url" ≠ ""
  · rw [if_pos h1]
    exact ⟨rget_rset_ne _ _ _ _ hk, rhas_rset_ne _ _ _ _ hk⟩
  · rw [if_neg h1]
    by_cases h2 : rget r "url" ≠ ""
    · rw [if_pos h2]
      exact ⟨rget_rset_ne _ _ _ _ hk, rhas_rset_ne _ _ _ _ hk⟩
    · rw [if_neg h2]
      exact ⟨rfl, rfl⟩

theorem normBody_pid (now : String) (r : Row) :
    rget (normBody now r) "profile_id" = canon_pid (normPidRaw r) := by
  unfold normBody
  rw [rget_rsetdefault_ne _ _ _ _ (by decide), rget_rsetdefault_ne _ _ _ _ (by decide),
    rget_rsetdefault_ne _ _ _ _ (by decide), rget_rsetdefault_ne _ _ _ _ (by decide),
    rget_rsetdefault_ne _ _ _ _ (by decide), rget_rsetdefault_ne _ _ _ _ (by decide),
    rget_rset_self]

theorem normBody_last_seen (now : String) (r : Row)
    (h : rhas r "last_seen_at" = false) :
    rget (normBody now r) "last_seen_at" = now ∧
    rhas (normBody now r) "last_seen_at" = true := by
  unfold normBody
  have h1 : rhas (normUrl r) "last_seen_at" = false := by
    rw [(normUrl_other r "last_seen_at" (by decide)).2]
    exact h
  have h2 : rhas (rset (normUrl r) "profile_id" (canon_pid (normPidRaw r)))
      "last_seen_at" = false := by
    rw [rhas_rset_ne _ _ _ _ (by decide)]
    exact h1
  have h3 : rhas (rsetdefault (rset (normUrl r) "profile_id" (canon_pid (normPidRaw r)))
      "profile_url" (rget (rset (normUrl r) "profile_id" (canon_pid (normPidRaw r))) "url"))
      "last_seen_at" = false := by
    rw [rhas_rsetdefault_ne _ _ _ _ (by decide)]
    exact h2
  have h4 : rhas (rsetdefault (rsetdefault
      (rset (normUrl r) "profile_id" (canon_pid (normPidRaw r)))
      "profile_url" (rget (rset (normUrl r) "profile_id" (canon_pid (normPidRaw r))) "url"))
      "first_seen_at" now) "last_seen_at" = false := by
    rw [rhas_rsetdefault_ne _ _ _ _ (by decide)]
    exact h3
  constructor
  · rw [rget_rsetdefault_ne _ _ _ _ (by decide), rget_rsetdefault_ne _ _ _ _ (by decide),
      rget_rsetdefault_ne _ _ _ _ (by decide), rget_rsetdefault_absent _ _ _ h4]
  · rw [rhas_rsetdefault_ne _ _ _ _ (by decide), rhas_rsetdefault_ne _ _ _ _ (by decide),
      rhas_rsetdefault_ne _ _ _ _ (by decide), rhas_rsetdefault_absent _ _ _ h4]

theorem updFromCols_not_mem (r : Row) (k : String) :
    ∀ (cols : List String) (u : Row), k ∉ cols →
      rget (updFromCols r cols u) k = rget u k ∧
      rhas (updFromCols r cols u) k = rhas u k := by
  intro cols
  induction cols with
  | nil => intro u _; exact ⟨rfl, rfl⟩
  | cons c cs ih =>
    intro u h
    have hkc : k ≠ c := fun he => h (he ▸ List.mem_cons_self c cs)
    have hck : c ≠ k := fun he => hkc he.symm
    have hcs : k ∉ cs := fun hm => h (List.mem_cons_of_mem c hm)
    have step : updFromCols r (c :: cs) u =
        updFromCols r cs (if rhas r c then rset u c (rget r c) else u) := rfl
    rw [step]
    obtain ⟨h1, h2⟩ := ih (if rhas r c then rset u c (rget r c) else u) hcs
    rw [h1, h2]
    by_cases hrc : rhas r c = true
    · rw [if_pos hrc]
      exact ⟨rget_rset_ne u c k _ hck, rhas_rset_ne u c k _ hck⟩
    · rw [if_neg hrc]
      exact ⟨rfl, rfl⟩

theorem updFromCols_mem (r : Row) (k : String) (hr : rhas r k = true) :
    ∀ (cols : List String) (u : Row), k ∈ cols →
      rget (updFromCols r cols u) k = rget r k ∧
      rhas (updFromCols r cols u) k = true := by
  intro cols
  induction cols with
  | nil => intro u h; exact absurd h (List.not_mem_nil k)
  | cons c cs ih =>
    intro u hmem
    have step : updFromCols r (c :: cs) u =
        updFromCols r cs (if rhas r c then rset u c (rget r c) else u) := rfl
    by_cases hin : k ∈ cs
    · rw [step]
      exact ih _ hin
    · have hkc : k = c := by
        rcases List.mem_cons.mp hmem with h | h
        · exact h
        · exact absurd h hin
      subst hkc
      rw [step]
      obtain ⟨h1, h2⟩ := updFromCols_not_mem r k cs _ hin
      rw [h1, h2, if_pos hr]
      exact ⟨rget_rset_self u k _, rhas_rset_self u k _⟩

theorem buildUpd_last_seen (st : SheetState) (pid : String) (r : Row)
    (h : rhas r "last_seen_at" = true) :
    rget (buildUpd st pid r) "last_seen_at" = rget r "last_seen_at" ∧
    rhas (buildUpd st pid r) "last_seen_at" = true := by
  have hmem : ("last_seen_at" : String) ∈ MACHINE_UPDATE_COLS := by decide
  obtain ⟨h1, h2⟩ := updFromCols_mem r "last_seen_at" h MACHINE_UPDATE_COLS ([] : Row) hmem
  have hne : ("profile_url" : String) ≠ "last_seen_at" := by decide
  unfold buildUpd
  by_cases hc1 : rget r "profile_url" ≠ ""
  · rw [if_pos hc1]
    by_cases hc2 : (st.urlsById.lookup pid).getD "" = "" ∨
        (st.urlsById.lookup pid).getD "" ≠ rget r "profile_url"
    · rw [if_pos hc2, rget_rset_ne _ _ _ _ hne, rhas_rset_ne _ _ _ _ hne]
      exact ⟨h1, h2⟩
    · rw [if_neg hc2]
      exact ⟨h1, h2⟩
  · rw [if_neg hc1]
    exact ⟨h1, h2⟩

theorem updateCells_ne_nil (data : Row) (h : rhas data "last_seen_at" = true) :
    updateCells data ≠ ([] : List (String × String)) := by
  intro hnil
  have hmem : ("last_seen_at", rget data "last_seen_at") ∈ updateCells data := by
    unfold updateCells
    apply List.mem_filterMap.mpr
    exact ⟨"last_seen_at", by decide, by rw [if_pos ⟨by decide, h⟩]⟩
  rw [hnil] at hmem
  exact List.not_mem_nil _ hmem

theorem syncStep_idToRow (s : SheetState) (r : Row) :
    (syncStep s r).idToRow =
      (if canon_pid (rget r "profile_id") = "" then s.idToRow
       else if (s.idToRow.lookup (canon_pid (rget r "profile_id"))).isSome then s.idToRow
       else s.idToRow ++ [(canon_pid (rget r "profile_id"), -1)]) := by
  unfold syncStep
  by_cases h1 : canon_pid (rget r "profile_id") = ""
  · simp [h1]
  · by_cases h2 : ((s.idToRow.lookup (canon_pid (rget r "profile_id"))).isSome = true) <;>
      by_cases h3 : rget r "profile_url" ≠ "" <;>
      simp [h1, h2, h3]

theorem lookup_isSome_syncStep (s : SheetState) (r : Row) (k : String)
    (h : (List.lookup k s.idToRow).isSome = true) :
    (List.lookup k (syncStep s r).idToRow).isSome = true := by
  rw [syncStep_idToRow]
  by_cases h1 : canon_pid (rget r "profile_id") = ""
  · rw [if_pos h1]; exact h
  · rw [if_neg h1]
    by_cases h2 : ((s.idToRow.lookup (canon_pid (rget r "profile_id"))).isSome = true)
    · rw [if_pos h2]; exact h
    · rw [if_neg h2]
      obtain ⟨v, hv⟩ := Option.isSome_iff_exists.mp h
      rw [lookup_append_some hv]
      rfl

theorem lookup_isSome_syncCtx (processed : List Row) :
    ∀ (s : SheetState) (k : String), (List.lookup k s.idToRow).isSome = true →
      (List.lookup k (syncCtx s processed).idToRow).isSome = true := by
  induction processed with
  | nil => intro s k h; exact h
  | cons r rest ih =>
    intro s k h
    exact ih (syncStep s r) k (lookup_isSome_syncStep s r k h)

theorem syncStep_lookup_self (s : SheetState) (r : Row)
    (hne : canon_pid (rget r "profile_id") ≠ "") :
    (List.lookup (canon_pid (rget r "profile_id")) (syncStep s r).idToRow).isSome
      = true := by
  rw [syncStep_idToRow, if_neg hne]
  by_cases h2 : ((s.idToRow.lookup (canon_pid (rget r "profile_id"))).isSome = true)
  · rw [if_pos h2]; exact h2
  · rw [if_neg h2]
    have hnone : List.lookup (canon_pid (rget r "profile_id")) s.idToRow = none :=
      Option.not_isSome_iff_eq_none.mp h2
    rw [lookup_append_none hnone]
    simp [List.lookup]

theorem syncCtx_lookup_of_mem (processed : List Row) :
    ∀ (s : SheetState) (r : Row), r ∈ processed →
      canon_pid (rget r "profile_id") ≠ "" →
      (List.lookup (canon_pid (rget r "profile_id"))
        (syncCtx s processed).idToRow).isSome = true := by
  induction processed with
  | nil => intro s r hr _; exact absurd hr (List.not_mem_nil r)
  | cons r0 rest ih =>
    intro s r hr hne
    rcases List.mem_cons.mp hr with hr | hr
    · subst hr
      exact lookup_isSome_syncCtx rest (syncStep s r) _ (syncStep_lookup_self s r hne)
    · exact ih (syncStep s r0) r hr hne

theorem planStep_toInsert_of_some (st : SheetState) (no : Bool) (plan : UpsertPlan)
    (r : Row) (h : (List.lookup (rget r "profile_id") st.idToRow).isSome = true) :
    (planStep st no plan r).toInsert = plan.toInsert := by
  unfold planStep
  obtain ⟨v, hv⟩ := Option.isSome_iff_exists.mp h
  rw [hv]
  cases no <;> simp

theorem plan_fold_toInsert (st : SheetState) (no : Bool) (processed : List Row) :
    ∀ (init : UpsertPlan),
      (∀ r ∈ processed, (List.lookup (rget r "profile_id") st.idToRow).isSome = true) →
      (processed.foldl (planStep st no) init).toInsert = init.toInsert := by
  induction processed with
  | nil => intro init _; rfl
  | cons r rest ih =>
    intro init h
    have h0 := h r (List.mem_cons_self r rest)
    have hrest : ∀ x ∈ rest, (List.lookup (rget x "profile_id") st.idToRow).isSome = true :=
      fun x hx => h x (List.mem_cons_of_mem r hx)
    show (rest.foldl (planStep st no) (planStep st no init r)).toInsert = init.toInsert
    rw [ih (planStep st no init r) hrest, planStep_toInsert_of_some st no init r h0]

theorem plan_fold_toUpdate_mem (st : SheetState) (no : Bool) (processed : List Row) :
    ∀ (init : UpsertPlan) (e : ℤ × Row),
      e ∈ (processed.foldl (planStep st no) init).toUpdate →
      e ∈ init.toUpdate ∨ ∃ r ∈ processed, e.2 = buildUpd st (rget r "profile_id") r := by
  induction processed with
  | nil => intro init e he; exact Or.inl he
  | cons r rest ih =>
    intro init e he
    have he' : e ∈ (rest.foldl (planStep st no) (planStep st no init r)).toUpdate := he
    rcases ih (planStep st no init r) e he' with h1 | ⟨x, hx, hbx⟩
    · unfold planStep at h1
      rcases hlk : List.lookup (rget r "profile_id") st.idToRow with _ | v
      · rw [hlk] at h1
        exact Or.inl h1
      · rw [hlk] at h1
        cases no with
        | true => exact Or.inl h1
        | false =>
          simp only [Bool.false_eq_true, if_false] at h1
          rcases setByKey_mem init.toUpdate v (buildUpd st (rget r "profile_id") r) e h1
            with h | h
          · exact Or.inl h
          · exact Or.inr ⟨r, List.mem_cons_self r rest, by rw [h]⟩
    · exact Or.inr ⟨x, List.mem_cons_of_mem r hx, hbx⟩

theorem mem_processed {now : String} {rows : List Row} {rn : Row} :
    rn ∈ rows.filterMap (normalizeScrapedRow now) ↔
      ∃ orig ∈ rows, canon_pid (normPidRaw orig) ≠ "" ∧ rn = normBody now orig := by
  rw [List.mem_filterMap]
  constructor
  · rintro ⟨orig, ho, he⟩
    unfold normalizeScrapedRow at he
    by_cases hc : canon_pid (normPidRaw orig) = ""
    · rw [if_pos hc] at he
      cases he
    · rw [if_neg hc] at he
      exact ⟨orig, ho, hc, (Option.some.inj he).symm⟩
  · rintro ⟨orig, ho, hc, he⟩
    refine ⟨orig, ho, ?_⟩
    unfold normalizeScrapedRow
    rw [if_neg hc, he]

theorem lookup_mem {α β : Type} [BEq α] [LawfulBEq α] {l : List (α × β)} {k : α}
    {v : β} (h : List.lookup k l = some v) : (k, v) ∈ l := by
  induction l with
  | nil => simp [List.lookup] at h
  | cons e rest ih =>
    obtain ⟨a, b⟩ := e
    by_cases hk : (k == a) = true
    · simp only [List.lookup, hk] at h
      cases h
      have hka : k = a := eq_of_beq hk
      subst hka
      exact List.mem_cons_self _ _
    · simp only [List.lookup, Bool.not_eq_true] at h
      rw [Bool.not_eq_true] at hk
      rw [hk] at h
      exact List.mem_cons_of_mem _ (ih h)

theorem setByKey_lookup_self {α β : Type} [DecidableEq α] [BEq α] [LawfulBEq α]
    (l : List (α × β)) (k : α) (v : β) :
    List.lookup k (setByKey l k v) = some v := by
  induction l with
  | nil => simp [setByKey, List.lookup]
  | cons e rest ih =>
    obtain ⟨a, b⟩ := e
    unfold setByKey
    by_cases h : a = k
    · rw [if_pos h]
      simp [List.lookup]
    · rw [if_neg h]
      have hbeq : (k == a) = false := beq_eq_false_iff_ne.mpr (Ne.symm h)
      simp [List.lookup, hbeq, ih]

theorem setByKey_lookup_ne {α β : Type} [DecidableEq α] [BEq α] [LawfulBEq α]
    (l : List (α × β)) (k k' : α) (v : β) (h : k ≠ k') :
    List.lookup k (setByKey l k' v) = List.lookup k l := by
  induction l with
  | nil => simp [setByKey, List.lookup, beq_eq_false_iff_ne.mpr h]
  | cons e rest ih =>
    obtain ⟨a, b⟩ := e
    unfold setByKey
    by_cases ha : a = k'
    · rw [if_pos ha]
      subst ha
      simp [List.lookup, beq_eq_false_iff_ne.mpr h]
    · rw [if_neg ha]
      by_cases hk : (k == a) = true <;> simp [List.lookup, hk, ih]

theorem planStep_toUpdate_isSome (st : SheetState) (no : Bool) (plan : UpsertPlan)
    (r : Row) (v : ℤ) (h : (List.lookup v plan.toUpdate).isSome = true) :
    (List.lookup v (planStep st no plan r).toUpdate).isSome = true := by
  unfold planStep
  rcases hlk : List.lookup (rget r "profile_id") st.idToRow with _ | w
  · simp only [hlk]
    exact h
  · simp only [hlk]
    cases no with
    | true => simp only [if_true]; exact h
    | false =>
      simp only [Bool.false_eq_true, if_false]
      by_cases hv : v = w
      · subst hv
        rw [setByKey_lookup_self]
        rfl
      · rw [setByKey_lookup_ne _ _ _ _ hv]
        exact h

theorem plan_fold_toUpdate_isSome (st : SheetState) (no : Bool)
    (processed : List Row) :
    ∀ (init : UpsertPlan) (v : ℤ), (List.lookup v init.toUpdate).isSome = true →
      (List.lookup v ((processed.foldl (planStep st no) init)).toUpdate).isSome
        = true := by
  induction processed with
  | nil => intro init v h; exact h
  | cons r rest ih =>
    intro init v h
    exact ih (planStep st no init r) v (planStep_toUpdate_isSome st no init r v h)

theorem plan_fold_toUpdate_key (st : SheetState) (processed : List Row) :
    ∀ (init : UpsertPlan) (rn : Row) (v : ℤ), rn ∈ processed →
      List.lookup (rget rn "profile_id") st.idToRow = some v →
      (List.lookup v ((processed.foldl (planStep st false) init)).toUpdate).isSome
        = true := by
  induction processed with
  | nil => intro init rn v hmem _; exact absurd hmem (List.not_mem_nil rn)
  | cons r rest ih =>
    intro init rn v hmem hlk
    rcases List.mem_cons.mp hmem with he | he
    · subst he
      show (List.lookup v
        ((rest.foldl (planStep st false) (planStep st false init rn))).toUpdate).isSome
          = true
      apply plan_fold_toUpdate_isSome
      unfold planStep
      simp only [hlk, Bool.false_eq_true, if_false]
      rw [setByKey_lookup_self]
      rfl
    · exact ih (planStep st false init r) rn v he hlk

theorem syncStep_lookup_some_pers (s : SheetState) (r : Row) (k : String) (v : ℤ)
    (h : List.lookup k s.idToRow = some v) :
    List.lookup k (syncStep s r).idToRow = some v := by
  rw [syncStep_idToRow]
  by_cases h1 : canon_pid (rget r "profile_id") = ""
  · rw [if_pos h1]; exact h
  · rw [if_neg h1]
    by_cases h2 : (s.idToRow.lookup (canon_pid (rget r "profile_id"))).isSome = true
    · rw [if_pos h2]; exact h
    · rw [if_neg h2]
      exact lookup_append_some h

theorem syncCtx_lookup_some_pers (processed : List Row) :
    ∀ (s : SheetState) (k : String) (v : ℤ), List.lookup k s.idToRow = some v →
      List.lookup k (syncCtx s processed).idToRow = some v := by
  induction processed with
  | nil => intro s k v h; exact h
  | cons r rest ih =>
    intro s k v h
    exact ih (syncStep s r) k v (syncStep_lookup_some_pers s r k v h)

theorem lookup_syncCtx_fresh (processed : List Row) :
    ∀ (s : SheetState) (pid : String), pid ≠ "" →
      List.lookup pid s.idToRow = none →
      (∃ rn ∈ processed, canon_pid (rget rn "profile_id") = pid) →
      List.lookup pid (syncCtx s processed).idToRow = some (-1) := by
  induction processed with
  | nil =>
    intro s pid _ _ hex
    obtain ⟨rn, hrn, _⟩ := hex
    exact absurd hrn (List.not_mem_nil rn)
  | cons r0 rest ih =>
    intro s pid hne hnone hex
    by_cases hhead : canon_pid (rget r0 "profile_id") = pid
    · have hstep : List.lookup pid (syncStep s r0).idToRow = some (-1) := by
        rw [syncStep_idToRow, hhead, if_neg hne]
        have h2 : ¬((s.idToRow.lookup pid).isSome = true) := by
          rw [hnone]; simp
        rw [if_neg h2, lookup_append_none hnone]
        simp [List.lookup]
      exact syncCtx_lookup_some_pers rest (syncStep s r0) pid (-1) hstep
    · obtain ⟨rn, hrn, hrnpid⟩ := hex
      have hrn2 : rn ∈ rest := by
        rcases List.mem_cons.mp hrn with he | he
        · exact absurd (he ▸ hrnpid) hhead
        · exact he
      have hstep : List.lookup pid (syncStep s r0).idToRow = none := by
        rw [syncStep_idToRow]
        by_cases h1 : canon_pid (rget r0 "profile_id") = ""
        · rw [if_pos h1]; exact hnone
        · rw [if_neg h1]
          by_cases h2 : (s.idToRow.lookup (canon_pid (rget r0 "profile_id"))).isSome
              = true
          · rw [if_pos h2]; exact hnone
          · rw [if_neg h2, lookup_append_none hnone]
            simp [List.lookup, beq_eq_false_iff_ne.mpr (Ne.symm hhead)]
      exact ih (syncStep s r0) pid hne hstep ⟨rn, hrn2, hrnpid⟩

theorem upsert_ok_state (st : SheetState) (rows : List Row) (no : Bool)
    (now : String) (res : SheetState × ℕ × ℕ)
    (h : upsert_nannies st rows no now = Except.ok res) :
    ∃ base : SheetState, base.idToRow = st.idToRow ∧
      res.1 = syncCtx base (rows.filterMap (normalizeScrapedRow now)) := by
  simp only [upsert_nannies] at h
  split at h
  · exact Except.noConfusion h
  · rename_i bu heq
    obtain rfl := Except.ok.inj h
    exact ⟨SheetState.mk (sort_by_score bu.1) st.idToRow st.urlsById, rfl, rfl⟩

/-- C4 (code-bug evidence): running `upsert_nannies` a second time with the
identical batch against the state left by a first run that freshly inserted
at least one record does not return `inserted = 0` with an updated count —
it raises.  The first run's ctx sync records the fresh id under the `-1` row
sentinel, so the second run routes every batch id to the update path
(nothing would be inserted, as proved), queues the sentinel row's
`last_seen_at` cell, and `ws.update_cells` raises `IncorrectCellLabel` on
the row index below 1 before anything is written.  The hypotheses say the
batch records carry no `last_seen_at` of their own (that field is
machine-stamped, as for every scraped record), the first call returned, and
some batch record has a valid canonical id unknown to the first call's
index (a fresh insert). -/
theorem c4_second_upsert_raises_on_sentinel_row
    (st : SheetState) (rows : List Row) (now₁ now₂ : String)
    (hno : ∀ r ∈ rows, rhas r "last_seen_at" = false)
    (hok : ∃ res₁, upsert_nannies st rows false now₁ = Except.ok res₁)
    (hfresh : ∃ r ∈ rows, canon_pid (normPidRaw r) ≠ "" ∧
        List.lookup (canon_pid (normPidRaw r)) st.idToRow = none) :
    (upsertPlan (upsertFlushState st rows false now₁) rows false now₂).toInsert
      = [] ∧
    ∃ rowsErr, upsert_nannies (upsertFlushState st rows false now₁) rows false now₂
        = Except.error ("IncorrectCellLabel", rowsErr) := by
  obtain ⟨res₁, hres⟩ := hok
  obtain ⟨r0, hr0, hpid0, hnone0⟩ := hfresh
  have hflush : upsertFlushState st rows false now₁ = res₁.1 := by
    unfold upsertFlushState
    rw [hres]
  obtain ⟨base, hbase, hsync⟩ := upsert_ok_state st rows false now₁ res₁ hres
  have keyA : ∀ rn ∈ rows.filterMap (normalizeScrapedRow now₂),
      (List.lookup (rget rn "profile_id") res₁.1.idToRow).isSome = true := by
    intro rn hrn
    rcases mem_processed.mp hrn with ⟨orig, ho, hc, he⟩
    have hmem1 : normBody now₁ orig ∈ rows.filterMap (normalizeScrapedRow now₁) :=
      mem_processed.mpr ⟨orig, ho, hc, rfl⟩
    have hpid1 : canon_pid (rget (normBody now₁ orig) "profile_id") =
        canon_pid (normPidRaw orig) := by
      rw [normBody_pid, canon_pid_idem]
    have hlk := syncCtx_lookup_of_mem (rows.filterMap (normalizeScrapedRow now₁))
      base (normBody now₁ orig) hmem1 (by rw [hpid1]; exact hc)
    rw [hpid1] at hlk
    have hrnpid : rget rn "profile_id" = canon_pid (normPidRaw orig) := by
      rw [he, normBody_pid]
    rw [hrnpid, hsync]
    exact hlk
  have conjIns : (upsertPlan res₁.1 rows false now₂).toInsert = [] :=
    plan_fold_toInsert res₁.1 false (rows.filterMap (normalizeScrapedRow now₂))
      ⟨[], []⟩ keyA
  have hm1 : normBody now₁ r0 ∈ rows.filterMap (normalizeScrapedRow now₁) :=
    mem_processed.mpr ⟨r0, hr0, hpid0, rfl⟩
  have hpidn1 : canon_pid (rget (normBody now₁ r0) "profile_id") =
      canon_pid (normPidRaw r0) := by
    rw [normBody_pid, canon_pid_idem]
  have hlk1 : List.lookup (canon_pid (normPidRaw r0)) res₁.1.idToRow = some (-1) := by
    rw [hsync]
    exact lookup_syncCtx_fresh (rows.filterMap (normalizeScrapedRow now₁)) base
      (canon_pid (normPidRaw r0)) hpid0 (by rw [hbase]; exact hnone0)
      ⟨normBody now₁ r0, hm1, hpidn1⟩
  have hm2 : normBody now₂ r0 ∈ rows.filterMap (normalizeScrapedRow now₂) :=
    mem_processed.mpr ⟨r0, hr0, hpid0, rfl⟩
  have hlk2 : List.lookup (rget (normBody now₂ r0) "profile_id") res₁.1.idToRow
      = some (-1) := by
    rw [normBody_pid]
    exact hlk1
  have hkey : (List.lookup (-1 : ℤ)
      (upsertPlan res₁.1 rows false now₂).toUpdate).isSome = true :=
    plan_fold_toUpdate_key res₁.1 (rows.filterMap (normalizeScrapedRow now₂))
      ⟨[], []⟩ (normBody now₂ r0) (-1) hm2 hlk2
  obtain ⟨u, hu⟩ := Option.isSome_iff_exists.mp hkey
  have hmemU : ((-1 : ℤ), u) ∈ (upsertPlan res₁.1 rows false now₂).toUpdate :=
    lookup_mem hu
  have hpayload : updateCells u ≠ ([] : Row) := by
    rcases plan_fold_toUpdate_mem res₁.1 false
        (rows.filterMap (normalizeScrapedRow now₂)) ⟨[], []⟩ ((-1 : ℤ), u) hmemU with
      habs | ⟨rn, hrn, hbe⟩
    · exact absurd habs (List.not_mem_nil _)
    · rcases mem_processed.mp hrn with ⟨orig, ho, hc, hrne⟩
      have hlast : rhas rn "last_seen_at" = true := by
        rw [hrne]
        exact (normBody_last_seen now₂ orig (hno orig ho)).2
      have hbu := buildUpd_last_seen res₁.1 (rget rn "profile_id") rn hlast
      have hhas : rhas u "last_seen_at" = true := by
        rw [show u = buildUpd res₁.1 (rget rn "profile_id") rn from hbe]
        exact hbu.2
      exact updateCells_ne_nil u hhas
  refine ⟨by rw [hflush]; exact conjIns, ?_⟩
  rw [hflush]
  have hcond : ((upsertPlan res₁.1 rows false now₂).toUpdate.filter
      (fun u => updateCells u.2 ≠ ([] : Row))).any (fun u => decide (u.1 < 1))
      = true := by
    apply List.any_eq_true.mpr
    refine ⟨((-1 : ℤ), u), List.mem_filter.mpr ⟨hmemU, ?_⟩, rfl⟩
    simpa using hpayload
  refine ⟨(append_new_rows res₁.1.sheet
    (upsertPlan res₁.1 rows false now₂).toInsert).1, ?_⟩
  simp only [upsert_nannies, Bool.false_eq_true, if_false]
  rw [show batch_update_machine_fields
      (append_new_rows res₁.1.sheet (upsertPlan res₁.1 rows false now₂).toInsert).1
      (upsertPlan res₁.1 rows false now₂).toUpdate
      = Except.error "IncorrectCellLabel"
    from by unfold batch_update_machine_fields; rw [if_pos hcond]]

/-- Witness for C4: a fresh insert of profile 608431 into an empty sheet and
context, then the identical one-record batch again — the second call would
insert nothing and raises. -/
theorem c4_second_upsert_raises_on_sentinel_row_witness :
    (upsertPlan (upsertFlushState ⟨[], [], []⟩
          [[("profile_id", "608431"),
            ("url", "https://nashanyanya.ru/nyanya/moscow/608431/")]]
          false "2025-06-10T12:00:00")
        [[("profile_id", "608431"),
          ("url", "https://nashanyanya.ru/nyanya/moscow/608431/")]]
        false "2025-06-10T13:00:00").toInsert = [] ∧
    ∃ rowsErr, upsert_nannies (upsertFlushState ⟨[], [], []⟩
          [[("profile_id", "608431"),
            ("url", "https://nashanyanya.ru/nyanya/moscow/608431/")]]
          false "2025-06-10T12:00:00")
        [[("profile_id", "608431"),
          ("url", "https://nashanyanya.ru/nyanya/moscow/608431/")]]
        false "2025-06-10T13:00:00"
      = Except.error ("IncorrectCellLabel", rowsErr) :=
  c4_second_upsert_raises_on_sentinel_row ⟨[], [], []⟩
    [[("profile_id", "608431"),
      ("url", "https://nashanyanya.ru/nyanya/moscow/608431/")]]
    "2025-06-10T12:00:00" "2025-06-10T13:00:00" (by decide) ⟨_, rfl⟩ (by decide)

/-- Witness for C1 at a concrete state and batch. -/
theorem c1_machine_writes_never_touch_human_fields_witness :
    List.Perm
      ((wsRowsAfterUpsert (upsert_nannies
          ⟨[[("profile_id", "111"), ("status", "Нанят(а)"), ("notes", "ok")]],
            [("111", 2)], []⟩
          [[("profile_id", "111"),
            ("url", "https://nashanyanya.ru/nyanya/moscow/111")]]
          false "2025-06-10T12:00:00")).map stripMachineCols)
      ((⟨[[("profile_id", "111"), ("status", "Нанят(а)"), ("notes", "ok")]],
          [("111", 2)], []⟩ : SheetState).sheet.map stripMachineCols ++
        (upsertPlan
          ⟨[[("profile_id", "111"), ("status", "Нанят(а)"), ("notes", "ok")]],
            [("111", 2)], []⟩
          [[("profile_id", "111"),
            ("url", "https://nashanyanya.ru/nyanya/moscow/111")]]
          false "2025-06-10T12:00:00").toInsert.map
          (fun r => stripMachineCols (mkSheetRow r))) ∧
    "status" ∉ MACHINE_UPDATE_COLS ∧ "notes" ∉ MACHINE_UPDATE_COLS ∧
    "last_contacted_at" ∉ MACHINE_UPDATE_COLS :=
  ⟨(c1_machine_writes_never_touch_human_fields
      ⟨[[("profile_id", "111"), ("status", "Нанят(а)"), ("notes", "ok")]],
        [("111", 2)], []⟩
      [[("profile_id", "111"),
        ("url", "https://nashanyanya.ru/nyanya/moscow/111")]]
      "2025-06-10T12:00:00").1,
   (c1_machine_writes_never_touch_human_fields
      ⟨[[("profile_id", "111"), ("status", "Нанят(а)"), ("notes", "ok")]],
        [("111", 2)], []⟩
      [[("profile_id", "111"),
        ("url", "https://nashanyanya.ru/nyanya/moscow/111")]]
      "2025-06-10T12:00:00").2.2 "status" (by decide),
   (c1_machine_writes_never_touch_human_fields
      ⟨[[("profile_id", "111"), ("status", "Нанят(а)"), ("notes", "ok")]],
        [("111", 2)], []⟩
      [[("profile_id", "111"),
        ("url", "https://nashanyanya.ru/nyanya/moscow/111")]]
      "2025-06-10T12:00:00").2.2 "notes" (by decide),
   (c1_machine_writes_never_touch_human_fields
      ⟨[[("profile_id", "111"), ("status", "Нанят(а)"), ("notes", "ok")]],
        [("111", 2)], []⟩
      [[("profile_id", "111"),
        ("url", "https://nashanyanya.ru/nyanya/moscow/111")]]
      "2025-06-10T12:00:00").2.2 "last_contacted_at" (by decide)⟩

/-! ### C7 lemma chain: text normalisation of relative-time phrases -/

theorem map_id_of_forall {f : Char → Char} (l : List Char) (h : ∀ c ∈ l, f c = c) :
    l.map f = l := by
  induction l with
  | nil => rfl
  | cons c t ih =>
    rw [List.map_cons, h c (List.mem_cons_self c t),
      ih (fun x hx => h x (List.mem_cons_of_mem c hx))]

theorem ruLower_digit (c : Char) (h : c.isDigit = true) : ruLower c = c := by
  simp only [Char.isDigit, Bool.and_eq_true, decide_eq_true_eq] at h
  obtain ⟨h1, h2⟩ := h
  have hv1 : 48 ≤ c.val := h1
  have hv2 : c.val ≤ 57 := h2
  unfold ruLower
  rw [if_neg, if_neg, if_neg]
  · intro he
    rw [he] at hv2
    exact absurd hv2 (by decide)
  · rintro ⟨ha, _⟩
    have : (1040 : UInt32) ≤ c.val := ha
    have : (1040 : ℕ) ≤ c.val.toNat := this
    have h57 : c.val.toNat ≤ 57 := hv2
    omega
  · rintro ⟨ha, _⟩
    have : (65 : UInt32) ≤ c.val := ha
    have : (65 : ℕ) ≤ c.val.toNat := this
    have h57 : c.val.toNat ≤ 57 := hv2
    omega

theorem takeWhile_digits_append {ds F : List Char}
    (hdig : ∀ c ∈ ds, c.isDigit = true)
    (hF : ∀ (hl : 0 < F.length), (F.get ⟨0, hl⟩).isDigit = false) :
    (ds ++ F).takeWhile Char.isDigit = ds ∧
      (ds ++ F).dropWhile Char.isDigit = F := by
  induction ds with
  | nil =>
    constructor
    · rw [List.nil_append]
      apply List.takeWhile_eq_nil_iff.mpr
      intro hl
      rw [hF hl]
      simp
    · rw [List.nil_append]
      apply List.dropWhile_eq_self_iff.mpr
      intro hl
      rw [hF hl]
      simp
  | cons d dt ih =>
    have hd : d.isDigit = true := hdig d (List.mem_cons_self d dt)
    have hdt : ∀ c ∈ dt, c.isDigit = true :=
      fun c hc => hdig c (List.mem_cons_of_mem d hc)
    obtain ⟨h1, h2⟩ := ih hdt
    constructor
    · rw [List.cons_append, List.takeWhile_cons, hd]
      simp only [if_true]
      rw [h1]
    · rw [List.cons_append, List.dropWhile_cons, hd]
      simp only [if_true]
      exact h2

theorem mem_of_containsSub {n h : List Char} (hc : containsSub n h = true) :
    ∀ c ∈ n, c ∈ h := by
  induction h with
  | nil =>
    intro c hcn
    unfold containsSub at hc
    rw [List.isPrefixOf_iff_prefix] at hc
    have : n = [] := List.prefix_nil.mp hc
    rw [this] at hcn
    exact absurd hcn (List.not_mem_nil c)
  | cons x t ih =>
    intro c hcn
    unfold containsSub at hc
    simp only [Bool.or_eq_true] at hc
    rcases hc with hp | hr
    · rw [List.isPrefixOf_iff_prefix] at hp
      exact hp.subset hcn
    · exact List.mem_cons_of_mem x (ih hr c hcn)

theorem containsSub_false_of_absent {n h : List Char} {c : Char}
    (hcn : c ∈ n) (hch : c ∉ h) : containsSub n h = false := by
  cases hc : containsSub n h
  · rfl
  · exact absurd (mem_of_containsSub hc c hcn) hch

theorem dropWhile_eq_self_of_head (p : Char → Bool) (l : List Char)
    (h : ∀ c t, l = c :: t → p c = false) : l.dropWhile p = l := by
  cases l with
  | nil => rfl
  | cons c t =>
    rw [List.dropWhile_cons, h c t rfl]
    simp

theorem stripChars_of_edges (l : List Char)
    (hh : ∀ c t, l = c :: t → c.isWhitespace = false)
    (ht : ∀ c t, l.reverse = c :: t → c.isWhitespace = false) :
    stripChars l = l := by
  unfold stripChars
  rw [dropWhile_eq_self_of_head _ _ hh, dropWhile_eq_self_of_head _ _ ht,
    List.reverse_reverse]

theorem normTxt_rel (ds F : List Char)
    (hne : ds ≠ []) (hdig : ∀ c ∈ ds, c.isDigit = true)
    (hFlow : ∀ c ∈ F, ruLower c = c) (hFyo : 'ё' ∉ F) (hFne : F ≠ [])
    (hFr : ∀ c t, F.reverse = c :: t → c.isWhitespace = false) :
    normTxt (String.mk (ds ++ F)) = ds ++ F := by
  unfold normTxt
  have hdata : (String.mk (ds ++ F)).data = ds ++ F := rfl
  rw [hdata]
  have hs : stripChars (ds ++ F) = ds ++ F := by
    apply stripChars_of_edges
    · intro c t heq
      cases ds with
      | nil => exact absurd rfl hne
      | cons d dt =>
        rw [List.cons_append] at heq
        injection heq with h1 _
        rw [← h1]
        exact digit_not_ws d (hdig d (List.mem_cons_self d dt))
    · intro c t heq
      rw [List.reverse_append] at heq
      cases hFrev : F.reverse with
      | nil => exact absurd (List.reverse_eq_nil_iff.mp hFrev) hFne
      | cons fc ft =>
        rw [hFrev, List.cons_append] at heq
        injection heq with h1 _
        rw [← h1]
        exact hFr fc ft hFrev
  rw [hs]
  have hm1 : (ds ++ F).map ruLower = ds ++ F := by
    apply map_id_of_forall
    intro c hc
    rcases List.mem_append.mp hc with h | h
    · exact ruLower_digit c (hdig c h)
    · exact hFlow c h
  rw [hm1]
  apply map_id_of_forall
  intro c hc
  rw [if_neg]
  rcases List.mem_append.mp hc with h | h
  · intro he
    subst he
    exact absurd (hdig 'ё' h) (by decide)
  · intro he
    subst he
    exact hFyo h

theorem relSearch_digits {ds F u : List Char}
    (hne : ds ≠ []) (hdig : ∀ c ∈ ds, c.isDigit = true)
    (hFd : ∀ (hl : 0 < F.length), (F.get ⟨0, hl⟩).isDigit = false)
    (hu : firstUnit relUnitCands (skipSpaces F) = some u) :
    relSearch (ds ++ F) = some (some (digitsToNat ds), u) := by
  obtain ⟨ht, hd2⟩ := takeWhile_digits_append hdig hFd
  have hmatch : matchRelAt (ds ++ F) = some (some (digitsToNat ds), u) := by
    unfold matchRelAt
    rw [ht, hd2, if_pos hne, hu]
  cases ds with
  | nil => exact absurd rfl hne
  | cons d dt =>
    rw [List.cons_append] at hmatch ⊢
    unfold relSearch
    rw [hmatch]

theorem firstUnit_mem {cands : List (List Char)} {l u : List Char}
    (h : firstUnit cands l = some u) : u ∈ cands := by
  induction cands with
  | nil => simp [firstUnit] at h
  | cons c cs ih =>
    unfold firstUnit at h
    by_cases hc : c.isPrefixOf l ∧ relTail (l.drop c.length) = true
    · rw [if_pos hc] at h
      exact (Option.some.inj h) ▸ List.mem_cons_self c cs
    · rw [if_neg hc] at h
      exact List.mem_cons_of_mem c (ih h)

theorem parse_rel_eq (now : PyDateTime) (ds F u : List Char)
    (hne : ds ≠ []) (hdig : ∀ c ∈ ds, c.isDigit = true)
    (hFlow : ∀ c ∈ F, ruLower c = c) (hFyo : 'ё' ∉ F) (hFne : F ≠ [])
    (hFr : ∀ c t, F.reverse = c :: t → c.isWhitespace = false)
    (hFd : ∀ (hl : 0 < F.length), (F.get ⟨0, hl⟩).isDigit = false)
    (hFe : 'е' ∉ F)
    (hu : firstUnit relUnitCands (skipSpaces F) = some u) :
    parse_last_active_ru (String.mk (ds ++ F)) now =
      (if (("минут").data).isPrefixOf u then
        some (dtSub now ((digitsToNat ds : ℤ) * microsPerMin))
      else if (("час").data).isPrefixOf u then
        some (dtSub now ((digitsToNat ds : ℤ) * microsPerHour))
      else if (("сут").data).isPrefixOf u ∨ (("д").data).isPrefixOf u then
        some (dtSub now ((digitsToNat ds : ℤ) * microsPerDay))
      else parseAbsBranch (ds ++ F) now) := by
  have hnorm := normTxt_rel ds F hne hdig hFlow hFyo hFne hFr
  have hraw : String.mk (ds ++ F) ≠ "" := by
    intro h
    have h2 : ds ++ F = [] := congrArg String.data h
    rcases List.append_eq_nil.mp h2 with ⟨h3, _⟩
    exact hne h3
  have habsentE : 'е' ∉ ds ++ F := by
    intro h
    rcases List.mem_append.mp h with h | h
    · exact absurd (hdig 'е' h) (by decide)
    · exact hFe h
  have hc1 : containsSub (("сейчас").data) (ds ++ F) = false :=
    containsSub_false_of_absent (by decide) habsentE
  have hc2 : containsSub (("сегодня").data) (ds ++ F) = false :=
    containsSub_false_of_absent (by decide) habsentE
  have hc3 : containsSub (("вчера").data) (ds ++ F) = false :=
    containsSub_false_of_absent (by decide) habsentE
  have hrel := relSearch_digits hne hdig hFd hu
  simp only [parse_last_active_ru]
  rw [if_neg hraw, hnorm, if_neg (by simp [hc1]), if_neg (by simp [hc2]),
    if_neg (by simp [hc3]), hrel]
  rfl

/-- C7: semantics of the Russian last-active phrase parser, for every input
and fixed current time: (1) a text whose normalisation contains the "now"
marker maps to the current time; (2) a numeral followed by " минут назад" /
" часов назад" / " дня назад" maps to the current time minus that many
minutes / hours / days, for every non-empty digit string; (3) with the
numeral omitted ("минуту назад", "час назад", "день назад") the count
defaults to 1; (4) a "вчера" text with no clock time maps to yesterday at
12:00; (5) a text matching none of the recognised forms (no marker
substring, no relative match, no absolute match) maps to `none`; and (6) an
unknown timestamp is treated as not recent by the recency check. -/
theorem c7_parse_last_active_semantics (now : PyDateTime) :
    (∀ raw : String, raw ≠ "" →
        containsSub (("сейчас").data) (normTxt raw) = true →
        parse_last_active_ru raw now = some now) ∧
    (∀ ds : List Char, ds ≠ [] → (∀ c ∈ ds, c.isDigit = true) →
        parse_last_active_ru (String.mk (ds ++ (" минут назад").data)) now
          = some (dtSub now ((digitsToNat ds : ℤ) * microsPerMin)) ∧
        parse_last_active_ru (String.mk (ds ++ (" часов назад").data)) now
          = some (dtSub now ((digitsToNat ds : ℤ) * microsPerHour)) ∧
        parse_last_active_ru (String.mk (ds ++ (" дня назад").data)) now
          = some (dtSub now ((digitsToNat ds : ℤ) * microsPerDay))) ∧
    (parse_last_active_ru "минуту назад" now = some (dtSub now (1 * microsPerMin)) ∧
     parse_last_active_ru "час назад" now = some (dtSub now (1 * microsPerHour)) ∧
     parse_last_active_ru "день назад" now = some (dtSub now (1 * microsPerDay))) ∧
    (∀ raw : String, raw ≠ "" →
        containsSub (("вчера").data) (normTxt raw) = true →
        containsSub (("сейчас").data) (normTxt raw) = false →
        containsSub (("сегодня").data) (normTxt raw) = false →
        findTime (normTxt raw) = none →
        parse_last_active_ru raw now
          = some (dtReplaceTime (dtSub now microsPerDay) 12 0 0 0)) ∧
    (∀ raw : String,
        containsSub (("сейчас").data) (normTxt raw) = false →
        containsSub (("сегодня").data) (normTxt raw) = false →
        containsSub (("вчера").data) (normTxt raw) = false →
        relSearch (normTxt raw) = none →
        absSearch (normTxt raw) = none →
        parse_last_active_ru raw now = none) ∧
    (∀ cutoff : PyDateTime, isRecent none cutoff = false) := by
  refine ⟨?_, ?_, ?_, ?_, ?_, fun _ => rfl⟩
  · intro raw hraw h
    simp only [parse_last_active_ru]
    rw [if_neg hraw, if_pos (by simp [h])]
  · intro ds hne hdig
    refine ⟨?_, ?_, ?_⟩
    · rw [parse_rel_eq now ds (" минут назад").data (("минут").data) hne hdig
        (by decide) (by decide) (by decide)
        (by intro c t h
            rw [show ((" минут назад").data).reverse
                  = 'д' :: (("азан туним ").data) from by decide] at h
            obtain ⟨h1, _⟩ := List.cons.inj h
            rw [← h1]; decide)
        (fun _ => rfl) (by decide) (by decide)]
      rfl
    · rw [parse_rel_eq now ds (" часов назад").data (("часов").data) hne hdig
        (by decide) (by decide) (by decide)
        (by intro c t h
            rw [show ((" часов назад").data).reverse
                  = 'д' :: (("азан восач ").data) from by decide] at h
            obtain ⟨h1, _⟩ := List.cons.inj h
            rw [← h1]; decide)
        (fun _ => rfl) (by decide) (by decide)]
      rfl
    · rw [parse_rel_eq now ds (" дня назад").data (("дня").data) hne hdig
        (by decide) (by decide) (by decide)
        (by intro c t h
            rw [show ((" дня назад").data).reverse
                  = 'д' :: (("азан янд ").data) from by decide] at h
            obtain ⟨h1, _⟩ := List.cons.inj h
            rw [← h1]; decide)
        (fun _ => rfl) (by decide) (by decide)]
      rfl
  · exact ⟨rfl, rfl, rfl⟩
  · intro raw hraw h1 h2 h3 hft
    simp only [parse_last_active_ru]
    rw [if_neg hraw, if_neg (by simp [h2]), if_neg (by simp [h3]),
      if_pos (by simp [h1]), hft]
  · intro raw h1 h2 h3 hrel habs
    by_cases hraw : raw = ""
    · simp [parse_last_active_ru, hraw]
    · simp only [parse_last_active_ru]
      rw [if_neg hraw, if_neg (by simp [h1]), if_neg (by simp [h2]),
        if_neg (by simp [h3]), hrel]
      show parseAbsBranch (normTxt raw) now = none
      simp only [parseAbsBranch]
      rw [habs]

theorem c7_parse_last_active_semantics_witness :
    parse_last_active_ru "Был(а) на сайте: Сейчас" (PyDateTime.mk 20249 12 0 0 0)
      = some (PyDateTime.mk 20249 12 0 0 0) ∧
    parse_last_active_ru (String.mk ((("15").data) ++ ((" минут назад").data)))
      (PyDateTime.mk 20249 12 0 0 0)
      = some (dtSub (PyDateTime.mk 20249 12 0 0 0)
          ((digitsToNat (("15").data) : ℤ) * microsPerMin)) ∧
    parse_last_active_ru "час назад" (PyDateTime.mk 20249 12 0 0 0)
      = some (dtSub (PyDateTime.mk 20249 12 0 0 0) (1 * microsPerHour)) ∧
    parse_last_active_ru "вчера" (PyDateTime.mk 20249 12 0 0 0)
      = some (dtReplaceTime (dtSub (PyDateTime.mk 20249 12 0 0 0) microsPerDay)
          12 0 0 0) ∧
    parse_last_active_ru "давно" (PyDateTime.mk 20249 12 0 0 0) = none ∧
    isRecent none (PyDateTime.mk 20249 12 0 0 0) = false := by
  obtain ⟨h1, h2, h3, h4, h5, h6⟩ :=
    c7_parse_last_active_semantics (PyDateTime.mk 20249 12 0 0 0)
  exact ⟨h1 _ (by decide) (by decide),
    (h2 (("15").data) (by decide) (by decide)).1,
    h3.2.1,
    h4 _ (by decide) (by decide) (by decide) (by decide) (by decide),
    h5 _ (by decide) (by decide) (by decide) (by decide) (by decide),
    h6 _⟩

theorem mem_addSeen_of_mem {s : List String} {x : String} (y : String)
    (h : x ∈ s) : x ∈ addSeen s y := by
  unfold addSeen
  split
  · exact h
  · exact List.mem_append_left _ h

theorem mem_addSeen_self (s : List String) (x : String) : x ∈ addSeen s x := by
  unfold addSeen
  split
  · assumption
  · exact List.mem_append_right _ (List.mem_singleton.mpr rfl)

theorem collect_none_char (cutoff : PyDateTime) (seen : List String) :
    ∀ (cards : List Card) (i : ℕ) (st : CollectState),
      (collectCards cutoff none seen cards i st).sink
        = st.sink ++ (cards.filter (refreshable cutoff seen)).map
            (fun c => refreshRow (canon_pid (pidOfCard c)) c) ∧
      (collectCards cutoff none seen cards i st).written
        = st.written + (cards.filter (refreshable cutoff seen)).length ∧
      (collectCards cutoff none seen cards i st).candidates.map Candidate.url
        = st.candidates.map Candidate.url
            ++ (cards.filter (openCandidate cutoff seen)).map Card.url := by
  intro cards
  induction cards with
  | nil => intro i st; simp [collectCards]
  | cons c rest ih =>
    intro i st
    simp only [collectCards]
    by_cases h1 : isRecent c.lastActiveAt cutoff = true ∧ c.url ≠ ""
    · rw [if_neg (not_not_intro h1)]
      by_cases h2 : canon_pid (pidOfCard c) ≠ "" ∧ canon_pid (pidOfCard c) ∈ seen
      · rw [if_pos h2]
        obtain ⟨hs, hw, hc⟩ := ih (i + 1)
          { st with
            sink := st.sink ++ [refreshRow (canon_pid (pidOfCard c)) c],
            written := st.written + 1 }
        have hr : refreshable cutoff seen c = true := by
          simp only [refreshable, decide_eq_true_eq]
          exact ⟨h1.1, h1.2, h2.1, h2.2⟩
        have ho : openCandidate cutoff seen c = false := by
          simp only [openCandidate, decide_eq_false_iff_not]
          intro hcontra
          exact hcontra.2.2 h2
        refine ⟨?_, ?_, ?_⟩
        · rw [hs, List.filter_cons, if_pos hr]
          simp
        · rw [hw, List.filter_cons, if_pos hr]
          simp [Nat.add_comm, Nat.add_assoc, Nat.add_left_comm]
        · rw [hc, List.filter_cons, if_neg (by simp [ho])]
      · rw [if_neg h2]
        obtain ⟨hs, hw, hc⟩ := ih (i + 1)
          { st with candidates := st.candidates ++
              [⟨i, c.url, pidOfCard c, c.lastActiveRaw, c.lastActiveAt⟩] }
        have hr : refreshable cutoff seen c = false := by
          simp only [refreshable, decide_eq_false_iff_not]
          intro hcontra
          exact h2 ⟨hcontra.2.2.1, hcontra.2.2.2⟩
        have ho : openCandidate cutoff seen c = true := by
          simp only [openCandidate, decide_eq_true_eq]
          exact ⟨h1.1, h1.2, h2⟩
        refine ⟨?_, ?_, ?_⟩
        · rw [hs, List.filter_cons, if_neg (by simp [hr])]
        · rw [hw, List.filter_cons, if_neg (by simp [hr])]
        · rw [hc, List.filter_cons, if_pos ho]
          simp
    · rw [if_pos h1]
      obtain ⟨hs, hw, hc⟩ := ih (i + 1) st
      have hr : refreshable cutoff seen c = false := by
        simp only [refreshable, decide_eq_false_iff_not]
        intro hcontra
        exact h1 ⟨hcontra.1, hcontra.2.1⟩
      have ho : openCandidate cutoff seen c = false := by
        simp only [openCandidate, decide_eq_false_iff_not]
        intro hcontra
        exact h1 ⟨hcontra.1, hcontra.2.1⟩
      refine ⟨?_, ?_, ?_⟩
      · rw [hs, List.filter_cons, if_neg (by simp [hr])]
      · rw [hw, List.filter_cons, if_neg (by simp [hr])]
      · rw [hc, List.filter_cons, if_neg (by simp [ho])]

theorem openStep_opened (op : String → Row × Bool) (st : OpenState)
    (c : Candidate) : (openStep op st c).opened = st.opened ++ [c.url] := by
  simp only [openStep]
  by_cases hm : (op c.url).2 = true <;> simp [hm]

theorem openStep_sink_prefix (op : String → Row × Bool) (st : OpenState)
    (c : Candidate) : ∃ t, (openStep op st c).sink = st.sink ++ t := by
  simp only [openStep]
  by_cases hm : (op c.url).2 = true
  · exact ⟨[], by simp [hm]⟩
  · exact ⟨[finalizeRow c (op c.url).1], by simp [hm]⟩

theorem openStep_written_ge (op : String → Row × Bool) (st : OpenState)
    (c : Candidate) : ∃ k, (openStep op st c).written = st.written + k := by
  simp only [openStep]
  by_cases hm : (op c.url).2 = true
  · exact ⟨0, by simp [hm]⟩
  · exact ⟨1, by simp [hm]⟩

theorem openFold_char (op : String → Row × Bool) :
    ∀ (cands : List Candidate) (st : OpenState),
      (∃ t, (cands.foldl (openStep op) st).sink = st.sink ++ t) ∧
      (∃ k, (cands.foldl (openStep op) st).written = st.written + k) ∧
      (cands.foldl (openStep op) st).opened
        = st.opened ++ cands.map Candidate.url := by
  intro cands
  induction cands with
  | nil => intro st; exact ⟨⟨[], by simp⟩, ⟨0, rfl⟩, by simp⟩
  | cons c rest ih =>
    intro st
    simp only [List.foldl_cons]
    obtain ⟨⟨t, ht⟩, ⟨k, hk⟩, ho⟩ := ih (openStep op st c)
    obtain ⟨t1, ht1⟩ := openStep_sink_prefix op st c
    obtain ⟨k1, hk1⟩ := openStep_written_ge op st c
    refine ⟨⟨t1 ++ t, ?_⟩, ⟨k1 + k, ?_⟩, ?_⟩
    · rw [ht, ht1, List.append_assoc]
    · rw [hk, hk1, Nat.add_assoc]
    · rw [ho, openStep_opened]
      simp

theorem openFold_seen_mono (op : String → Row × Bool) :
    ∀ (cands : List Candidate) (st : OpenState) (x : String),
      x ∈ st.seen → x ∈ (cands.foldl (openStep op) st).seen := by
  intro cands
  induction cands with
  | nil => intro st x h; exact h
  | cons c rest ih =>
    intro st x h
    simp only [List.foldl_cons]
    refine ih (openStep op st c) x ?_
    simp only [openStep]
    by_cases hm : (op c.url).2 = true
    · rw [if_pos hm]
      show x ∈ (if c.pid ≠ "" then addSeen st.seen c.pid else st.seen)
      split
      · exact mem_addSeen_of_mem _ h
      · exact h
    · rw [if_neg hm]
      show x ∈ (if c.pid ≠ "" then addSeen st.seen (canon_pid c.pid) else st.seen)
      split
      · exact mem_addSeen_of_mem _ h
      · exact h

/-- C5: a listing page that produces zero written candidates stops the
paginator — a zero entry in the per-visited-page written log is always the
final entry, so the next listing page is never requested. -/
theorem c5_zero_written_stops_pagination
    (openProfile : String → Row × Bool) (cutoff : PyDateTime)
    (cap maxPages : Option ℕ) (new_only : Bool) (now : String)
    (pages : List (List Card)) (pageIndex : ℕ) (seen : List String)
    (st : SheetState) (i : ℕ)
    (h : (scrape_recent_across_pages openProfile cutoff cap maxPages new_only
        now pages pageIndex seen st).1.get? i = some 0) :
    (scrape_recent_across_pages openProfile cutoff cap maxPages new_only now
        pages pageIndex seen st).1.length = i + 1 := by
  induction pages generalizing pageIndex seen st i with
  | nil => simp [scrape_recent_across_pages] at h
  | cons page rest ih =>
    cases maxPages with
    | some m =>
      simp only [scrape_recent_across_pages] at h ⊢
      by_cases hw : (scrape_recent_on_current_serp openProfile cutoff cap seen
          page).written = 0
      · rw [if_pos hw] at h ⊢
        cases i with
        | zero => rfl
        | succ j => simp [List.get?] at h
      · rw [if_neg hw] at h ⊢
        by_cases hm : m ≤ pageIndex
        · rw [if_pos hm] at h ⊢
          cases i with
          | zero => rfl
          | succ j => simp [List.get?] at h
        · rw [if_neg hm] at h ⊢
          cases i with
          | zero => exact absurd (Option.some.inj h) hw
          | succ j =>
            simp only [List.get?] at h
            simp only [List.length_cons, ih _ _ _ _ h]
    | none =>
      simp only [scrape_recent_across_pages] at h ⊢
      by_cases hw : (scrape_recent_on_current_serp openProfile cutoff cap seen
          page).written = 0
      · rw [if_pos hw] at h ⊢
        cases i with
        | zero => rfl
        | succ j => simp [List.get?] at h
      · rw [if_neg hw] at h ⊢
        cases i with
        | zero => exact absurd (Option.some.inj h) hw
        | succ j =>
          simp only [List.get?] at h
          simp only [List.length_cons, ih _ _ _ _ h]

theorem c5_zero_written_stops_pagination_witness :
    (scrape_recent_across_pages (fun _ => ([("name", "x")], false))
        (PyDateTime.mk 20249 0 0 0 0) none none false "2025-06-10"
        [[⟨"https://nashanyanya.ru/nyanya/msk/2/", some "час назад",
            some (PyDateTime.mk 20249 12 0 0 0)⟩],
         [⟨"https://nashanyanya.ru/nyanya/msk/2/", some "час назад",
            some (PyDateTime.mk 20249 12 0 0 0)⟩],
         [],
         [⟨"https://nashanyanya.ru/nyanya/msk/2/", some "час назад",
            some (PyDateTime.mk 20249 12 0 0 0)⟩]]
        1 ["2"] ⟨[], [], []⟩).1.get? 2 = some 0 ∧
    (scrape_recent_across_pages (fun _ => ([("name", "x")], false))
        (PyDateTime.mk 20249 0 0 0 0) none none false "2025-06-10"
        [[⟨"https://nashanyanya.ru/nyanya/msk/2/", some "час назад",
            some (PyDateTime.mk 20249 12 0 0 0)⟩],
         [⟨"https://nashanyanya.ru/nyanya/msk/2/", some "час назад",
            some (PyDateTime.mk 20249 12 0 0 0)⟩],
         [],
         [⟨"https://nashanyanya.ru/nyanya/msk/2/", some "час назад",
            some (PyDateTime.mk 20249 12 0 0 0)⟩]]
        1 ["2"] ⟨[], [], []⟩).1.length = 2 + 1 :=
  ⟨by decide,
   c5_zero_written_stops_pagination _ _ _ _ _ _ _ _ _ _ 2 (by decide)⟩

/-- C6 (counterexample): the claim fails for a card examined after the page
cap is hit.  With `cap = 1`, a seen-set holding id "2" and a page showing an
unseen recent card followed by a recent card whose canonical id "2" is in
the seen-set, the collector breaks out of the scan as soon as the first card
fills the candidate list: the second card — recent and known, so the claim
promises it a refresh record and a written increment — is never examined,
no refresh record for it reaches the sink, and the page's written count
stays 1 (the opened first card) instead of 2. -/
theorem c6_counterexample_cap_break_skips_seen_recent :
    refreshable (PyDateTime.mk 20249 0 0 0 0) ["2"]
        ⟨"https://nashanyanya.ru/nyanya/msk/2/", some "час назад",
          some (PyDateTime.mk 20249 12 0 0 0)⟩ = true ∧
    (scrape_recent_on_current_serp (fun _ => ([("name", "x")], false))
        (PyDateTime.mk 20249 0 0 0 0) (some 1) ["2"]
        [⟨"https://nashanyanya.ru/nyanya/msk/1/", some "час назад",
           some (PyDateTime.mk 20249 12 0 0 0)⟩,
         ⟨"https://nashanyanya.ru/nyanya/msk/2/", some "час назад",
           some (PyDateTime.mk 20249 12 0 0 0)⟩]).written = 1 ∧
    refreshRow (canon_pid (pidOfCard
        ⟨"https://nashanyanya.ru/nyanya/msk/2/", some "час назад",
          some (PyDateTime.mk 20249 12 0 0 0)⟩))
        ⟨"https://nashanyanya.ru/nyanya/msk/2/", some "час назад",
          some (PyDateTime.mk 20249 12 0 0 0)⟩
      ∉ (scrape_recent_on_current_serp (fun _ => ([("name", "x")], false))
          (PyDateTime.mk 20249 0 0 0 0) (some 1) ["2"]
          [⟨"https://nashanyanya.ru/nyanya/msk/1/", some "час назад",
             some (PyDateTime.mk 20249 12 0 0 0)⟩,
           ⟨"https://nashanyanya.ru/nyanya/msk/2/", some "час назад",
             some (PyDateTime.mk 20249 12 0 0 0)⟩]).sink := by
  decide

/-- C6 (amended): with no page cap, every result card the collector examines
that is recent, carries a URL and whose canonical id is in the seen-set is
handled without navigation: the page's sink starts with exactly the refresh
records (id, canonical URL, raw/parsed last-active) of those cards in card
order, the page's written count is their number plus the full scrapes, and
the set of navigated URLs is exactly the URLs of the non-skipped queued
candidates — a skipped known card is never navigated to. -/
theorem c6_refresh_skips_navigation_and_counts (op : String → Row × Bool)
    (cutoff : PyDateTime) (seen : List String) (cards : List Card) :
    (∃ tail, (scrape_recent_on_current_serp op cutoff none seen cards).sink
        = (cards.filter (refreshable cutoff seen)).map
            (fun c => refreshRow (canon_pid (pidOfCard c)) c) ++ tail) ∧
    (∃ k, (scrape_recent_on_current_serp op cutoff none seen cards).written
        = (cards.filter (refreshable cutoff seen)).length + k) ∧
    (scrape_recent_on_current_serp op cutoff none seen cards).opened
      = (cards.filter (openCandidate cutoff seen)).map Card.url := by
  simp only [scrape_recent_on_current_serp]
  obtain ⟨hs, hw, hc⟩ := collect_none_char cutoff seen cards 0 ⟨[], 0, []⟩
  obtain ⟨⟨t, ht⟩, ⟨k, hk⟩, ho⟩ :=
    openFold_char op (collectCards cutoff none seen cards 0 ⟨[], 0, []⟩).candidates
      ⟨(collectCards cutoff none seen cards 0 ⟨[], 0, []⟩).sink, seen,
       (collectCards cutoff none seen cards 0 ⟨[], 0, []⟩).written, []⟩
  refine ⟨⟨t, ?_⟩, ⟨k, ?_⟩, ?_⟩
  · rw [ht]
    simp only at hs
    rw [hs]
    simp
  · rw [hk]
    simp only at hw
    rw [hw]
    simp
  · rw [ho]
    simp only at hc
    rw [hc]
    simp

/-- C10: a fully scraped candidate whose scoring response flags it as male is
discarded by the per-page scraper: the open step appends nothing to the sink
(so the row never reaches the upsert or the persisted table), leaves the
page's written count unchanged, and adds the candidate's id to the seen-set,
where it stays for the rest of the page's open phase; consequently, on any
later page run with a seen-set holding that id (for ids their own
canonicalisation, as the numeric profile ids are), every URL the scraper
navigates to belongs to a card with a different canonical id — the male
profile is never re-scraped. -/
theorem c10_male_flagged_row_discarded (op : String → Row × Bool)
    (st : OpenState) (c : Candidate)
    (hmale : (op c.url).2 = true) (hpid : c.pid ≠ "") :
    (openStep op st c).sink = st.sink ∧
    (openStep op st c).written = st.written ∧
    c.pid ∈ (openStep op st c).seen ∧
    (∀ rest : List Candidate,
        c.pid ∈ (rest.foldl (openStep op) (openStep op st c)).seen) ∧
    (∀ (cutoff : PyDateTime) (seen2 : List String) (cards : List Card),
        canon_pid c.pid = c.pid → c.pid ∈ seen2 →
        ∀ u ∈ (scrape_recent_on_current_serp op cutoff none seen2 cards).opened,
          ∃ card ∈ cards, card.url = u ∧
            canon_pid (pidOfCard card) ≠ canon_pid c.pid) := by
  have hseen : c.pid ∈ (openStep op st c).seen := by
    simp only [openStep]
    rw [if_pos hmale]
    show c.pid ∈ (if c.pid ≠ "" then addSeen st.seen c.pid else st.seen)
    rw [if_pos hpid]
    exact mem_addSeen_self st.seen c.pid
  refine ⟨?_, ?_, hseen, fun rest => openFold_seen_mono op rest _ _ hseen, ?_⟩
  · simp only [openStep]
    rw [if_pos hmale]
  · simp only [openStep]
    rw [if_pos hmale]
  · intro cutoff seen2 cards hcanon hmem u hu
    simp only [scrape_recent_on_current_serp] at hu
    obtain ⟨_, _, hc⟩ := collect_none_char cutoff seen2 cards 0 ⟨[], 0, []⟩
    obtain ⟨_, _, ho⟩ :=
      openFold_char op (collectCards cutoff none seen2 cards 0 ⟨[], 0, []⟩).candidates
        ⟨(collectCards cutoff none seen2 cards 0 ⟨[], 0, []⟩).sink, seen2,
         (collectCards cutoff none seen2 cards 0 ⟨[], 0, []⟩).written, []⟩
    rw [ho] at hu
    simp only at hc
    rw [hc] at hu
    simp only [List.nil_append] at hu
    obtain ⟨card, hcard, hurl⟩ := List.exists_of_mem_map hu
    have hfil := List.mem_filter.mp hcard
    refine ⟨card, hfil.1, hurl, ?_⟩
    intro heq
    have hopen := hfil.2
    simp only [openCandidate, decide_eq_true_eq] at hopen
    rw [hcanon] at heq
    exact hopen.2.2 ⟨by rw [heq]; exact hpid, by rw [heq]; exact hmem⟩

theorem c10_male_flagged_row_discarded_witness :
    (openStep (fun _ => ([("name", "x")], true)) ⟨[], [], 0, []⟩
        ⟨0, "https://nashanyanya.ru/nyanya/msk/7/", "7", none, none⟩).sink
      = [] ∧
    (openStep (fun _ => ([("name", "x")], true)) ⟨[], [], 0, []⟩
        ⟨0, "https://nashanyanya.ru/nyanya/msk/7/", "7", none, none⟩).written
      = 0 ∧
    "7" ∈ (openStep (fun _ => ([("name", "x")], true)) ⟨[], [], 0, []⟩
        ⟨0, "https://nashanyanya.ru/nyanya/msk/7/", "7", none, none⟩).seen := by
  obtain ⟨h1, h2, h3, _, _⟩ :=
    c10_male_flagged_row_discarded (fun _ => ([("name", "x")], true))
      ⟨[], [], 0, []⟩ ⟨0, "https://nashanyanya.ru/nyanya/msk/7/", "7", none, none⟩
      rfl (by decide)
  exact ⟨h1, h2, h3⟩
